import Mathlib

/-!
Verification of the chess rules engine in `chess.js` (browser-chess).

The definitions below are a shallow embedding of the source: the board is the
8×8 grid of optional pieces, colors are booleans (`true` = white, mirroring the
source's upper-case test `piece === piece.toUpperCase()`), and every generator,
check query and the move applier follow the source line by line.  DOM calls
(`initializeBoard`, highlighting, the status text) are dropped; `checkGameStatus`
returns the classification it would display.
-/

namespace Chess

/-- Piece kinds, from the source's letters k q r b n p. -/
inductive Kind where
  | king | queen | rook | bishop | knight | pawn
deriving DecidableEq, Repr

/-- A piece: kind plus color. `isW = true` encodes an upper-case (white) letter. -/
structure Piece where
  kind : Kind
  isW : Bool
deriving DecidableEq, Repr

/-- The 8×8 board: each square holds an optional piece (source: `this.board`). -/
abbrev Board := Fin 8 → Fin 8 → Option Piece

/-- Source `isInBounds(row, col)`. -/
def isInBounds (r c : Int) : Bool :=
  decide (0 ≤ r) && decide (r < 8) && decide (0 ≤ c) && decide (c < 8)

theorem isInBounds_iff {r c : Int} :
    isInBounds r c = true ↔ 0 ≤ r ∧ r < 8 ∧ 0 ≤ c ∧ c < 8 := by
  simp [isInBounds, and_assoc]

/-- Read a square; out-of-bounds reads yield `none` (the source always guards
reads with `isInBounds`, so in-bounds behavior is all that is exercised). -/
def Board.get? (b : Board) (r c : Int) : Option Piece :=
  if h : isInBounds r c = true then
    b ⟨r.toNat, by have := isInBounds_iff.mp h; omega⟩
      ⟨c.toNat, by have := isInBounds_iff.mp h; omega⟩
  else none

/-- Write a square (source: `this.board[r][c] = v`). -/
def Board.set (b : Board) (r c : Int) (v : Option Piece) : Board :=
  fun i j => if ((i : Nat) : Int) = r ∧ ((j : Nat) : Int) = c then v else b i j

/-- A move object: `{row, col}` with the optional castling tags.  Plain moves
are pushed without the tags, i.e. with `isCastling = false`. -/
structure Move where
  row : Int
  col : Int
  isCastling : Bool
  rookCol : Int
deriving DecidableEq, Repr

/-- Shorthand for a plain (non-castling) move object `{row, col}`. -/
def mv (r c : Int) : Move := ⟨r, c, false, 0⟩

/-- Source `this.hasMoved`: the six movement-history flags. -/
structure HasMovedFlags where
  whiteKing : Bool
  blackKing : Bool
  whiteRookLeft : Bool
  whiteRookRight : Bool
  blackRookLeft : Bool
  blackRookRight : Bool
deriving DecidableEq, Repr

/-- Engine-relevant game state: board, side to move (`true` = white), the two
capture lists and the movement-history flags.  UI fields (selection, highlight,
gameOver flag) are presentation state and are not modelled. -/
structure GameState where
  board : Board
  currentTurn : Bool
  capturedWhite : List Piece
  capturedBlack : List Piece
  hasMoved : HasMovedFlags

/-- All 64 squares in row-major order — the iteration order of the source's
`for (row …) for (col …)` loops. -/
def squaresList : List (Int × Int) :=
  (List.range 8).flatMap fun r => (List.range 8).map fun c => (Int.ofNat r, Int.ofNat c)

/-- Source `isOpponentPiece(row, col, isWhite)`. -/
def isOpponentPiece (b : Board) (r c : Int) (isWhite : Bool) : Bool :=
  match b.get? r c with
  | none => false
  | some p => if isWhite then !p.isW else p.isW

/-- Source `getPawnMoves`: forward one (and two from the start row) onto empty
squares, and the two diagonal captures onto opponent-occupied squares. -/
def getPawnMoves (b : Board) (r c : Int) : List Move :=
  match b.get? r c with
  | none => []
  | some p =>
    let dir : Int := if p.isW then -1 else 1
    let startRow : Int := if p.isW then 6 else 1
    let fwd :=
      if isInBounds (r + dir) c && (b.get? (r + dir) c).isNone then
        if r = startRow && (b.get? (r + 2 * dir) c).isNone then
          [mv (r + dir) c, mv (r + 2 * dir) c]
        else
          [mv (r + dir) c]
      else []
    let caps := ([-1, 1] : List Int).filterMap fun off =>
      if isInBounds (r + dir) (c + off) && (b.get? (r + dir) (c + off)).isSome
          && isOpponentPiece b (r + dir) (c + off) p.isW then
        some (mv (r + dir) (c + off))
      else none
    fwd ++ caps

/-- One ray of `getLinearMoves`: walk from `(r, c)` in direction `(dr, dc)`,
emitting empty squares, stopping at the first occupied square (emitted when it
holds an opponent piece).  Fuel 8 covers the longest in-board ray. -/
def rayWalk (b : Board) (isWhite : Bool) (dr dc : Int) : Nat → Int → Int → List Move
  | 0, _, _ => []
  | Nat.succ fuel, r, c =>
    if isInBounds r c then
      match b.get? r c with
      | none => mv r c :: rayWalk b isWhite dr dc fuel (r + dr) (c + dc)
      | some _ => if isOpponentPiece b r c isWhite then [mv r c] else []
    else []

/-- Source `getLinearMoves(row, col, directions)`. -/
def getLinearMoves (b : Board) (r c : Int) (dirs : List (Int × Int)) : List Move :=
  match b.get? r c with
  | none => []
  | some p => dirs.flatMap fun d => rayWalk b p.isW d.1 d.2 8 (r + d.1) (c + d.2)

/-- Source `getRookMoves`. -/
def getRookMoves (b : Board) (r c : Int) : List Move :=
  getLinearMoves b r c [(-1, 0), (1, 0), (0, -1), (0, 1)]

/-- Source `getBishopMoves`. -/
def getBishopMoves (b : Board) (r c : Int) : List Move :=
  getLinearMoves b r c [(-1, -1), (-1, 1), (1, -1), (1, 1)]

/-- Source `getQueenMoves`. -/
def getQueenMoves (b : Board) (r c : Int) : List Move :=
  getLinearMoves b r c [(-1, 0), (1, 0), (0, -1), (0, 1), (-1, -1), (-1, 1), (1, -1), (1, 1)]

/-- The eight knight offsets, in source order. -/
def knightOffsets : List (Int × Int) :=
  [(-2, -1), (-2, 1), (-1, -2), (-1, 2), (1, -2), (1, 2), (2, -1), (2, 1)]

/-- Source `getKnightMoves`. -/
def getKnightMoves (b : Board) (r c : Int) : List Move :=
  match b.get? r c with
  | none => []
  | some p =>
    knightOffsets.filterMap fun d =>
      if isInBounds (r + d.1) (c + d.2)
          && ((b.get? (r + d.1) (c + d.2)).isNone || isOpponentPiece b (r + d.1) (c + d.2) p.isW) then
        some (mv (r + d.1) (c + d.2))
      else none

/-- The eight king offsets, in source order. -/
def kingOffsets : List (Int × Int) :=
  [(-1, -1), (-1, 0), (-1, 1), (0, -1), (0, 1), (1, -1), (1, 0), (1, 1)]

/-- Source `getBasicKingMoves`: plain adjacency, no castling (used inside check
detection; `getKingMoves` repeats the identical adjacency loop verbatim). -/
def getBasicKingMoves (b : Board) (r c : Int) : List Move :=
  match b.get? r c with
  | none => []
  | some p =>
    kingOffsets.filterMap fun d =>
      if isInBounds (r + d.1) (c + d.2)
          && ((b.get? (r + d.1) (c + d.2)).isNone || isOpponentPiece b (r + d.1) (c + d.2) p.isW) then
        some (mv (r + d.1) (c + d.2))
      else none

/-- The king-location scan of `isKingInCheck`: first square in row-major order
holding the king of the given color. -/
def findKing (b : Board) (isWhite : Bool) : Option (Int × Int) :=
  squaresList.find? fun sq =>
    match b.get? sq.1 sq.2 with
    | some p => decide (p.kind = Kind.king) && (if isWhite then p.isW else !p.isW)
    | none => false

/-- Source `getValidMovesWithoutCheckValidation`: per-kind pseudo-legal moves,
with the non-castling king rule. -/
def getValidMovesWithoutCheckValidation (b : Board) (r c : Int) : List Move :=
  match b.get? r c with
  | none => []
  | some p =>
    match p.kind with
    | Kind.pawn => getPawnMoves b r c
    | Kind.rook => getRookMoves b r c
    | Kind.knight => getKnightMoves b r c
    | Kind.bishop => getBishopMoves b r c
    | Kind.queen => getQueenMoves b r c
    | Kind.king => getBasicKingMoves b r c

/-- Source `isKingInCheck(isWhite)`: locate the king, then test whether any
opponent piece has a pseudo-legal move onto its square. -/
def isKingInCheck (b : Board) (isWhite : Bool) : Bool :=
  match findKing b isWhite with
  | none => false
  | some kp =>
    squaresList.any fun sq =>
      match b.get? sq.1 sq.2 with
      | some p =>
        (if isWhite then !p.isW else p.isW) &&
          (getValidMovesWithoutCheckValidation b sq.1 sq.2).any fun m =>
            decide (m.row = kp.1) && decide (m.col = kp.2)
      | none => false

/-- Source `isSquareUnderAttack(row, col, isWhite)`. -/
def isSquareUnderAttack (b : Board) (r c : Int) (isWhite : Bool) : Bool :=
  squaresList.any fun sq =>
    match b.get? sq.1 sq.2 with
    | some p =>
      (if isWhite then !p.isW else p.isW) &&
        (getValidMovesWithoutCheckValidation b sq.1 sq.2).any fun m =>
          decide (m.row = r) && decide (m.col = c)
    | none => false

/-- Source `getCastlingMoves(row, col, isWhite)`; the `row`/`col` arguments are
unused in the source as well (it works from `baseRow` directly). -/
def getCastlingMoves (g : GameState) (_row _col : Int) (isWhite : Bool) : List Move :=
  if isKingInCheck g.board isWhite then []
  else
    let kingMoved := if isWhite then g.hasMoved.whiteKing else g.hasMoved.blackKing
    if kingMoved then []
    else
      let baseRow : Int := if isWhite then 7 else 0
      let kingsideRookMoved :=
        if isWhite then g.hasMoved.whiteRookRight else g.hasMoved.blackRookRight
      let kingside :=
        if !kingsideRookMoved && (g.board.get? baseRow 5).isNone
            && (g.board.get? baseRow 6).isNone
            && (match g.board.get? baseRow 7 with
                | some p => decide (p.kind = Kind.rook)
                | none => false) then
          if !isSquareUnderAttack g.board baseRow 5 isWhite
              && !isSquareUnderAttack g.board baseRow 6 isWhite then
            [⟨baseRow, 6, true, 7⟩]
          else []
        else []
      let queensideRookMoved :=
        if isWhite then g.hasMoved.whiteRookLeft else g.hasMoved.blackRookLeft
      let queenside :=
        if !queensideRookMoved && (g.board.get? baseRow 1).isNone
            && (g.board.get? baseRow 2).isNone && (g.board.get? baseRow 3).isNone
            && (match g.board.get? baseRow 0 with
                | some p => decide (p.kind = Kind.rook)
                | none => false) then
          if !isSquareUnderAttack g.board baseRow 2 isWhite
              && !isSquareUnderAttack g.board baseRow 3 isWhite then
            [⟨baseRow, 2, true, 0⟩]
          else []
        else []
      kingside ++ queenside

/-- Source `getKingMoves`: the adjacency loop (identical to
`getBasicKingMoves`) followed by the castling candidates. -/
def getKingMoves (g : GameState) (r c : Int) : List Move :=
  match g.board.get? r c with
  | none => []
  | some p => getBasicKingMoves g.board r c ++ getCastlingMoves g r c p.isW

/-- Source `wouldBeInCheck`: simulate the plain relocation (destination first,
then clearing the origin, exactly as the source mutates) and ask whether the
mover's king is attacked.  The source's undo step is implicit here. -/
def wouldBeInCheck (b : Board) (fr fc tr tc : Int) : Bool :=
  match b.get? fr fc with
  | none => false
  | some p =>
    isKingInCheck ((b.set tr tc (some p)).set fr fc none) p.isW

/-- Source `getValidMoves(row, col)`: per-kind pseudo-legal moves filtered by
the self-check simulation.  Empty squares yield `[]`; there is no ownership
test here (ownership is checked by `isPieceOwnedByCurrentPlayer` in the click
handler before this is consulted). -/
def getValidMoves (g : GameState) (r c : Int) : List Move :=
  match g.board.get? r c with
  | none => []
  | some p =>
    let moves :=
      match p.kind with
      | Kind.pawn => getPawnMoves g.board r c
      | Kind.rook => getRookMoves g.board r c
      | Kind.knight => getKnightMoves g.board r c
      | Kind.bishop => getBishopMoves g.board r c
      | Kind.queen => getQueenMoves g.board r c
      | Kind.king => getKingMoves g r c
    moves.filter fun m => !wouldBeInCheck g.board r c m.row m.col

/-- Source `isPieceOwnedByCurrentPlayer(row, col)`. -/
def isPieceOwnedByCurrentPlayer (g : GameState) (r c : Int) : Bool :=
  match g.board.get? r c with
  | none => false
  | some p => (g.currentTurn && p.isW) || (!g.currentTurn && !p.isW)

/-- Source `movePiece(fromRow, fromCol, toRow, toCol, move)`: castling rook
relocation, capture bookkeeping, pawn promotion and the movement-history flag
updates.  With an empty origin the source would throw on `piece.toUpperCase()`;
it is only ever called with an occupied origin, and we return the state
unchanged in that branch. -/
def movePiece (g : GameState) (fr fc tr tc : Int) (m : Move) : GameState :=
  match g.board.get? fr fc with
  | none => g
  | some piece =>
    let captured := g.board.get? tr tc
    let g1 :=
      if m.isCastling then
        let b1 := (g.board.set tr tc (some piece)).set fr fc none
        let rookToCol : Int := if tc = 6 then 5 else 3
        let rook := b1.get? tr m.rookCol
        let b2 := (b1.set tr rookToCol rook).set tr m.rookCol none
        { g with board := b2 }
      else
        let g' :=
          match captured with
          | some cp =>
            if cp.isW then { g with capturedWhite := g.capturedWhite ++ [cp] }
            else { g with capturedBlack := g.capturedBlack ++ [cp] }
          | none => g
        let b1 := (g'.board.set tr tc (some piece)).set fr fc none
        let b2 :=
          if piece.kind = Kind.pawn
              && ((piece.isW && decide (tr = 0)) || (!piece.isW && decide (tr = 7))) then
            b1.set tr tc (some ⟨Kind.queen, piece.isW⟩)
          else b1
        { g' with board := b2 }
    let hm := g1.hasMoved
    let hm' :=
      if piece.kind = Kind.king then
        if piece.isW then { hm with whiteKing := true } else { hm with blackKing := true }
      else if piece.kind = Kind.rook then
        if piece.isW then
          { hm with
            whiteRookLeft := if fc = 0 then true else hm.whiteRookLeft,
            whiteRookRight := if fc = 7 then true else hm.whiteRookRight }
        else
          { hm with
            blackRookLeft := if fc = 0 then true else hm.blackRookLeft,
            blackRookRight := if fc = 7 then true else hm.blackRookRight }
      else hm
    { g1 with hasMoved := hm' }

/-- Source `switchTurn` (minus the status side effects, which
`checkGameStatus` reports as a value below). -/
def switchTurn (g : GameState) : GameState :=
  { g with currentTurn := !g.currentTurn }

/-- Source `hasAnyValidMoves`: some square owned by the side to move has a
nonempty legal move list. -/
def hasAnyValidMoves (g : GameState) : Bool :=
  squaresList.any fun sq =>
    isPieceOwnedByCurrentPlayer g sq.1 sq.2 && !(getValidMoves g sq.1 sq.2).isEmpty

/-- The classification `checkGameStatus` displays. -/
inductive GameStatus where
  | checkmate | stalemate | check | ongoing
deriving DecidableEq, Repr

/-- Source `checkGameStatus`, as the classification it produces for the side to
move (`endGame 'Checkmate…'` / `endGame 'Stalemate…'` / the `Check!` text /
clearing the text). -/
def checkGameStatus (g : GameState) : GameStatus :=
  let hasValidMoves := hasAnyValidMoves g
  let inCheck := isKingInCheck g.board g.currentTurn
  if !hasValidMoves then
    if inCheck then GameStatus.checkmate else GameStatus.stalemate
  else if inCheck then GameStatus.check else GameStatus.ongoing

/-- Build a board from row-major lists (row 0 first), as `INITIAL_BOARD` is
written in the source. -/
def boardOfLists (rows : List (List (Option Piece))) : Board :=
  fun r c => (((rows.get? (r : Nat)).getD []).get? (c : Nat)).join

/-- Abbreviations for the twelve letters of `INITIAL_BOARD`. -/
def wK : Option Piece := some ⟨Kind.king, true⟩
def wQ : Option Piece := some ⟨Kind.queen, true⟩
def wR : Option Piece := some ⟨Kind.rook, true⟩
def wB : Option Piece := some ⟨Kind.bishop, true⟩
def wN : Option Piece := some ⟨Kind.knight, true⟩
def wP : Option Piece := some ⟨Kind.pawn, true⟩
def bK : Option Piece := some ⟨Kind.king, false⟩
def bQ : Option Piece := some ⟨Kind.queen, false⟩
def bR : Option Piece := some ⟨Kind.rook, false⟩
def bB : Option Piece := some ⟨Kind.bishop, false⟩
def bN : Option Piece := some ⟨Kind.knight, false⟩
def bP : Option Piece := some ⟨Kind.pawn, false⟩

/-- Source `INITIAL_BOARD`. -/
def INITIAL_BOARD : Board := boardOfLists
  [[bR, bN, bB, bQ, bK, bB, bN, bR],
   [bP, bP, bP, bP, bP, bP, bP, bP],
   [none, none, none, none, none, none, none, none],
   [none, none, none, none, none, none, none, none],
   [none, none, none, none, none, none, none, none],
   [none, none, none, none, none, none, none, none],
   [wP, wP, wP, wP, wP, wP, wP, wP],
   [wR, wN, wB, wQ, wK, wB, wN, wR]]

/-- All six `hasMoved` flags cleared, as in the constructor. -/
def freshFlags : HasMovedFlags := ⟨false, false, false, false, false, false⟩

/-- The state built by the `ChessGame` constructor (and by `resetGame`). -/
def initialState : GameState :=
  { board := INITIAL_BOARD
    currentTurn := true
    capturedWhite := []
    capturedBlack := []
    hasMoved := freshFlags }

/-- The states the running game can be in: the initial state, plus anything
produced by selecting an own piece, committing one of its legal moves and
switching the turn — the exact flow of `handleSquareClick`. -/
inductive Reachable : GameState → Prop where
  | init : Reachable initialState
  | step (g : GameState) (r c : Int) (m : Move) :
      Reachable g →
      isPieceOwnedByCurrentPlayer g r c = true →
      m ∈ getValidMoves g r c →
      Reachable (switchTurn (movePiece g r c m.row m.col m))

/-! ### Basic lemmas about board reads and writes -/

theorem isInBounds_of_get?_eq_some {b : Board} {r c : Int} {p : Piece}
    (h : b.get? r c = some p) : isInBounds r c = true := by
  unfold Board.get? at h
  by_cases hb : isInBounds r c = true
  · exact hb
  · rw [dif_neg hb] at h; cases h

theorem Board.get?_set_self (b : Board) {r c : Int} (v : Option Piece)
    (h : isInBounds r c = true) : (b.set r c v).get? r c = v := by
  have h4 := isInBounds_iff.mp h
  unfold Board.get? Board.set
  rw [dif_pos h]
  have hr : ((r.toNat : Nat) : Int) = r := by omega
  have hc : ((c.toNat : Nat) : Int) = c := by omega
  simp [hr, hc]

theorem Board.get?_set_ne (b : Board) {r c r' c' : Int} (v : Option Piece)
    (h : ¬(r' = r ∧ c' = c)) : (b.set r c v).get? r' c' = b.get? r' c' := by
  unfold Board.get? Board.set
  by_cases hb : isInBounds r' c' = true
  · have h4 := isInBounds_iff.mp hb
    rw [dif_pos hb, dif_pos hb]
    have hr : ((r'.toNat : Nat) : Int) = r' := by omega
    have hc : ((c'.toNat : Nat) : Int) = c' := by omega
    simp only [Fin.val_mk, hr, hc]
    rw [if_neg h]
  · rw [dif_neg hb, dif_neg hb]

theorem mem_squaresList {x : Int × Int} : x ∈ squaresList ↔ isInBounds x.1 x.2 = true := by
  constructor
  · intro hx
    obtain ⟨r, hr, hx2⟩ := List.mem_flatMap.mp hx
    obtain ⟨c, hc, rfl⟩ := List.mem_map.mp hx2
    rw [List.mem_range] at hr hc
    rw [isInBounds_iff]
    refine ⟨?_, ?_, ?_, ?_⟩ <;> simp [Int.ofNat_eq_natCast] <;> omega
  · intro hx
    rw [isInBounds_iff] at hx
    obtain ⟨h1, h2, h3, h4⟩ := hx
    have e1 : Int.ofNat x.1.toNat = x.1 := by simp [Int.ofNat_eq_natCast]; omega
    have e2 : Int.ofNat x.2.toNat = x.2 := by simp [Int.ofNat_eq_natCast]; omega
    exact List.mem_flatMap.mpr ⟨x.1.toNat, List.mem_range.mpr (by omega),
      List.mem_map.mpr ⟨x.2.toNat, List.mem_range.mpr (by omega),
        by rw [Prod.ext_iff]; exact ⟨e1, e2⟩⟩⟩

theorem squaresList_nodup : squaresList.Nodup := by decide

/-! ### Small list helpers -/

theorem anyCongr {α : Type} {l : List α} {p q : α → Bool}
    (h : ∀ x ∈ l, p x = q x) : l.any p = l.any q := by
  induction l with
  | nil => rfl
  | cons a t ih =>
    simp only [List.any_cons]
    rw [h a (by simp), ih fun x hx => h x (by simp [hx])]

theorem findCongr {α : Type} {l : List α} {p q : α → Bool}
    (h : ∀ x ∈ l, p x = q x) : l.find? p = l.find? q := by
  induction l with
  | nil => rfl
  | cons a t ih =>
    rw [List.find?_cons, List.find?_cons, h a (by simp),
      ih fun x hx => h x (by simp [hx])]

/-- Counting with two predicates that agree except possibly at one (present,
no-duplicates) element: the counts differ exactly by the two indicator bits. -/
theorem countP_change {α : Type} {l : List α} (hl : l.Nodup) {x : α} (hx : x ∈ l)
    {p q : α → Bool} (hagree : ∀ y ∈ l, y ≠ x → p y = q y) :
    l.countP p + (if q x then 1 else 0) = l.countP q + (if p x then 1 else 0) := by
  induction l with
  | nil => cases hx
  | cons a t ih =>
    rw [List.nodup_cons] at hl
    rw [List.countP_cons, List.countP_cons]
    rcases List.mem_cons.mp hx with rfl | hxt
    · have heq : t.countP p = t.countP q :=
        List.countP_congr fun y hy => by
          rw [hagree y (List.mem_cons_of_mem _ hy) (fun hyx => hl.1 (hyx ▸ hy))]
      rw [heq]; omega
    · have hax : a ≠ x := fun h => hl.1 (h ▸ hxt)
      have := ih hl.2 hxt fun y hy hyx => hagree y (List.mem_cons_of_mem _ hy) hyx
      rw [hagree a (List.mem_cons_self a t) hax]
      omega

/-- Two distinct members both satisfying the predicate force a count of at
least two (for a duplicate-free list). -/
theorem two_le_countP {α : Type} {l : List α} (hl : l.Nodup) {x y : α}
    (hx : x ∈ l) (hy : y ∈ l) (hxy : x ≠ y) {p : α → Bool}
    (hpx : p x = true) (hpy : p y = true) : 2 ≤ l.countP p := by
  induction l with
  | nil => cases hx
  | cons a t ih =>
    rw [List.nodup_cons] at hl
    rw [List.countP_cons]
    rcases List.mem_cons.mp hx with rfl | hxt
    · rcases List.mem_cons.mp hy with rfl | hyt
      · exact absurd rfl hxy
      · have : 0 < t.countP p := List.countP_pos_iff.mpr ⟨y, hyt, hpy⟩
        rw [if_pos hpx]; omega
    · rcases List.mem_cons.mp hy with rfl | hyt
      · have : 0 < t.countP p := List.countP_pos_iff.mpr ⟨x, hxt, hpx⟩
        rw [if_pos hpy]; omega
      · have := ih hl.2 hxt hyt
        omega

/-! ### Membership characterizations for the move generators -/

theorem band_elim {a b : Bool} (h : (a && b) = true) : a = true ∧ b = true := by
  cases a <;> cases b <;> simp_all

theorem band_intro {a b : Bool} (h1 : a = true) (h2 : b = true) : (a && b) = true := by
  rw [h1, h2]; rfl

theorem bor_elim {a b : Bool} (h : (a || b) = true) : a = true ∨ b = true := by
  cases a <;> cases b <;> simp_all

theorem bor_intro {a b : Bool} (h : a = true ∨ b = true) : (a || b) = true := by
  cases a <;> cases b <;> simp_all

theorem mv_isCastling (r c : Int) : (mv r c).isCastling = false := rfl

/-- Characterization of the offset-loop shared by the knight and the two king
adjacency loops. -/
theorem mem_offsetLoop {b : Board} {r c : Int} {isWhite : Bool} {offs : List (Int × Int)}
    {m : Move} :
    (m ∈ offs.filterMap fun d =>
        if isInBounds (r + d.1) (c + d.2)
            && ((b.get? (r + d.1) (c + d.2)).isNone || isOpponentPiece b (r + d.1) (c + d.2) isWhite) then
          some (mv (r + d.1) (c + d.2))
        else none) ↔
      ∃ d ∈ offs, m = mv (r + d.1) (c + d.2) ∧ isInBounds (r + d.1) (c + d.2) = true ∧
        (b.get? (r + d.1) (c + d.2) = none ∨ isOpponentPiece b (r + d.1) (c + d.2) isWhite = true) := by
  rw [List.mem_filterMap]
  constructor
  · rintro ⟨d, hd, hif⟩
    by_cases hcond : (isInBounds (r + d.1) (c + d.2)
        && ((b.get? (r + d.1) (c + d.2)).isNone || isOpponentPiece b (r + d.1) (c + d.2) isWhite)) = true
    · rw [if_pos hcond] at hif
      rcases band_elim hcond with ⟨h1, h2⟩
      rcases bor_elim h2 with h3 | h3
      · exact ⟨d, hd, (Option.some.inj hif).symm, h1, Or.inl (Option.isNone_iff_eq_none.mp h3)⟩
      · exact ⟨d, hd, (Option.some.inj hif).symm, h1, Or.inr h3⟩
    · rw [if_neg hcond] at hif; cases hif
  · rintro ⟨d, hd, rfl, h1, h2⟩
    refine ⟨d, hd, ?_⟩
    rw [if_pos]
    refine band_intro h1 (bor_intro ?_)
    rcases h2 with h2 | h2
    · exact Or.inl (Option.isNone_iff_eq_none.mpr h2)
    · exact Or.inr h2

theorem mem_getKnightMoves {b : Board} {r c : Int} {p : Piece} {m : Move}
    (hp : b.get? r c = some p) :
    m ∈ getKnightMoves b r c ↔
      ∃ d ∈ knightOffsets, m = mv (r + d.1) (c + d.2) ∧ isInBounds (r + d.1) (c + d.2) = true ∧
        (b.get? (r + d.1) (c + d.2) = none ∨ isOpponentPiece b (r + d.1) (c + d.2) p.isW = true) := by
  unfold getKnightMoves
  rw [hp]
  exact mem_offsetLoop

theorem mem_getBasicKingMoves {b : Board} {r c : Int} {p : Piece} {m : Move}
    (hp : b.get? r c = some p) :
    m ∈ getBasicKingMoves b r c ↔
      ∃ d ∈ kingOffsets, m = mv (r + d.1) (c + d.2) ∧ isInBounds (r + d.1) (c + d.2) = true ∧
        (b.get? (r + d.1) (c + d.2) = none ∨ isOpponentPiece b (r + d.1) (c + d.2) p.isW = true) := by
  unfold getBasicKingMoves
  rw [hp]
  exact mem_offsetLoop

theorem mem_getPawnMoves {b : Board} {r c : Int} {p : Piece} {m : Move}
    (hp : b.get? r c = some p) {dir startRow : Int}
    (hdir : dir = if p.isW then -1 else 1) (hsr : startRow = if p.isW then 6 else 1) :
    m ∈ getPawnMoves b r c ↔
      (isInBounds (r + dir) c = true ∧ b.get? (r + dir) c = none ∧
        (m = mv (r + dir) c ∨
          (r = startRow ∧ b.get? (r + 2 * dir) c = none ∧ m = mv (r + 2 * dir) c)))
      ∨ (∃ off, (off = -1 ∨ off = 1) ∧ m = mv (r + dir) (c + off) ∧
          isInBounds (r + dir) (c + off) = true ∧
          (b.get? (r + dir) (c + off)).isSome = true ∧
          isOpponentPiece b (r + dir) (c + off) p.isW = true) := by
  subst hdir; subst hsr
  unfold getPawnMoves
  rw [hp]
  simp only [List.mem_append, List.mem_filterMap]
  constructor
  · rintro (hf | ⟨off, hoff, hif⟩)
    · by_cases h1 : (isInBounds (r + (if p.isW then -1 else 1)) c
          && (b.get? (r + (if p.isW then -1 else 1)) c).isNone) = true
      · rw [if_pos h1] at hf
        rcases band_elim h1 with ⟨hb1, hb2⟩
        have hb2' := Option.isNone_iff_eq_none.mp hb2
        by_cases h2 : (decide (r = if p.isW then 6 else 1)
            && (b.get? (r + 2 * (if p.isW then -1 else 1)) c).isNone) = true
        · rw [if_pos h2] at hf
          rcases band_elim h2 with ⟨hc1, hc2⟩
          rcases List.mem_cons.mp hf with rfl | hf2
          · exact Or.inl ⟨hb1, hb2', Or.inl rfl⟩
          · rcases List.mem_singleton.mp hf2 with rfl
            exact Or.inl ⟨hb1, hb2', Or.inr ⟨of_decide_eq_true hc1,
              Option.isNone_iff_eq_none.mp hc2, rfl⟩⟩
        · rw [if_neg h2] at hf
          rcases List.mem_singleton.mp hf with rfl
          exact Or.inl ⟨hb1, hb2', Or.inl rfl⟩
      · rw [if_neg h1] at hf; cases hf
    · by_cases hcond : (isInBounds (r + (if p.isW then -1 else 1)) (c + off)
          && (b.get? (r + (if p.isW then -1 else 1)) (c + off)).isSome
          && isOpponentPiece b (r + (if p.isW then -1 else 1)) (c + off) p.isW) = true
      · rw [if_pos hcond] at hif
        rcases band_elim hcond with ⟨hcc, h3⟩
        rcases band_elim hcc with ⟨h1, h2⟩
        refine Or.inr ⟨off, ?_, (Option.some.inj hif).symm, h1, h2, h3⟩
        rcases List.mem_cons.mp hoff with h | h
        · exact Or.inl h
        · exact Or.inr (List.mem_singleton.mp h)
      · rw [if_neg hcond] at hif; cases hif
  · rintro (⟨h1, h2, hm⟩ | ⟨off, hoff, rfl, h1, h2, h3⟩)
    · left
      rw [if_pos (band_intro h1 (Option.isNone_iff_eq_none.mpr h2))]
      rcases hm with rfl | ⟨hr, h4, rfl⟩
      · by_cases h2' : (decide (r = if p.isW then 6 else 1)
            && (b.get? (r + 2 * (if p.isW then -1 else 1)) c).isNone) = true
        · rw [if_pos h2']; exact List.mem_cons_self _ _
        · rw [if_neg h2']; exact List.mem_singleton.mpr rfl
      · rw [if_pos (band_intro (decide_eq_true hr) (Option.isNone_iff_eq_none.mpr h4))]
        exact List.mem_cons_of_mem _ (List.mem_singleton.mpr rfl)
    · right
      refine ⟨off, ?_, ?_⟩
      · rcases hoff with rfl | rfl
        · exact List.mem_cons_self _ _
        · exact List.mem_cons_of_mem _ (List.mem_singleton.mpr rfl)
      · rw [if_pos (band_intro (band_intro h1 h2) h3)]

theorem mem_rayWalk {b : Board} {isWhite : Bool} {dr dc : Int} :
    ∀ (fuel : Nat) (r0 c0 : Int) (m : Move),
    m ∈ rayWalk b isWhite dr dc fuel r0 c0 ↔
      ∃ j : Nat, j < fuel ∧ m = mv (r0 + (j : Int) * dr) (c0 + (j : Int) * dc) ∧
        (∀ i : Nat, i ≤ j → isInBounds (r0 + (i : Int) * dr) (c0 + (i : Int) * dc) = true) ∧
        (∀ i : Nat, i < j → b.get? (r0 + (i : Int) * dr) (c0 + (i : Int) * dc) = none) ∧
        (b.get? (r0 + (j : Int) * dr) (c0 + (j : Int) * dc) = none ∨
          isOpponentPiece b (r0 + (j : Int) * dr) (c0 + (j : Int) * dc) isWhite = true) := by
  intro fuel
  induction fuel with
  | zero =>
    intro r0 c0 m
    simp [rayWalk]
  | succ n ih =>
    intro r0 c0 m
    simp only [rayWalk]
    by_cases hin : isInBounds r0 c0 = true
    · rw [if_pos hin]
      cases hcell : b.get? r0 c0 with
      | none =>
        simp only [List.mem_cons]
        rw [ih (r0 + dr) (c0 + dc) m]
        constructor
        · rintro (rfl | ⟨j, hj, rfl, hib, hmt, hlast⟩)
          · refine ⟨0, by omega, by norm_num [mv], ?_, by omega, Or.inl (by simpa using hcell)⟩
            intro i hi
            have : i = 0 := by omega
            subst this
            simpa using hin
          · refine ⟨j + 1, by omega, ?_, ?_, ?_, ?_⟩
            · have e1 : r0 + ((j : Int) + 1) * dr = r0 + dr + (j : Int) * dr := by ring
              have e2 : c0 + ((j : Int) + 1) * dc = c0 + dc + (j : Int) * dc := by ring
              push_cast
              rw [e1, e2]
            · intro i hi
              cases i with
              | zero => simpa using hin
              | succ i' =>
                have := hib i' (by omega)
                have e1 : r0 + ((i' : Int) + 1) * dr = r0 + dr + (i' : Int) * dr := by ring
                have e2 : c0 + ((i' : Int) + 1) * dc = c0 + dc + (i' : Int) * dc := by ring
                push_cast
                rw [e1, e2]
                exact this
            · intro i hi
              cases i with
              | zero => simpa using hcell
              | succ i' =>
                have := hmt i' (by omega)
                have e1 : r0 + ((i' : Int) + 1) * dr = r0 + dr + (i' : Int) * dr := by ring
                have e2 : c0 + ((i' : Int) + 1) * dc = c0 + dc + (i' : Int) * dc := by ring
                push_cast
                rw [e1, e2]
                exact this
            · have e1 : r0 + ((j : Int) + 1) * dr = r0 + dr + (j : Int) * dr := by ring
              have e2 : c0 + ((j : Int) + 1) * dc = c0 + dc + (j : Int) * dc := by ring
              push_cast
              rw [e1, e2]
              exact hlast
        · rintro ⟨j, hj, rfl, hib, hmt, hlast⟩
          cases j with
          | zero => left; norm_num [mv]
          | succ j' =>
            right
            refine ⟨j', by omega, ?_, ?_, ?_, ?_⟩
            · have e1 : r0 + ((j' : Int) + 1) * dr = r0 + dr + (j' : Int) * dr := by ring
              have e2 : c0 + ((j' : Int) + 1) * dc = c0 + dc + (j' : Int) * dc := by ring
              push_cast
              rw [← e1, ← e2]
            · intro i hi
              have := hib (i + 1) (by omega)
              have e1 : r0 + ((i : Int) + 1) * dr = r0 + dr + (i : Int) * dr := by ring
              have e2 : c0 + ((i : Int) + 1) * dc = c0 + dc + (i : Int) * dc := by ring
              push_cast at this
              rw [e1, e2] at this
              exact this
            · intro i hi
              have := hmt (i + 1) (by omega)
              have e1 : r0 + ((i : Int) + 1) * dr = r0 + dr + (i : Int) * dr := by ring
              have e2 : c0 + ((i : Int) + 1) * dc = c0 + dc + (i : Int) * dc := by ring
              push_cast at this
              rw [e1, e2] at this
              exact this
            · have e1 : r0 + ((j' : Int) + 1) * dr = r0 + dr + (j' : Int) * dr := by ring
              have e2 : c0 + ((j' : Int) + 1) * dc = c0 + dc + (j' : Int) * dc := by ring
              push_cast at hlast
              rw [e1, e2] at hlast
              exact hlast
      | some q =>
        by_cases hopp : isOpponentPiece b r0 c0 isWhite = true
        · rw [if_pos hopp]
          simp only [List.mem_singleton]
          constructor
          · rintro rfl
            refine ⟨0, by omega, by norm_num [mv], ?_, by omega, Or.inr (by simpa using hopp)⟩
            intro i hi
            have : i = 0 := by omega
            subst this
            simpa using hin
          · rintro ⟨j, hj, rfl, hib, hmt, hlast⟩
            cases j with
            | zero => norm_num [mv]
            | succ j' =>
              have := hmt 0 (by omega)
              simp only [Nat.cast_zero, zero_mul, add_zero] at this
              rw [this] at hcell
              cases hcell
        · rw [if_neg hopp]
          simp only [List.not_mem_nil, false_iff, not_exists]
          rintro j ⟨hj, rfl, hib, hmt, hlast⟩
          cases j with
          | zero =>
            simp only [Nat.cast_zero, zero_mul, add_zero] at hlast
            rcases hlast with h | h
            · rw [h] at hcell; cases hcell
            · exact hopp h
          | succ j' =>
            have := hmt 0 (by omega)
            simp only [Nat.cast_zero, zero_mul, add_zero] at this
            rw [this] at hcell
            cases hcell
    · rw [if_neg hin]
      simp only [List.not_mem_nil, false_iff, not_exists]
      rintro j ⟨hj, rfl, hib, hmt, hlast⟩
      have := hib 0 (by omega)
      simp only [Nat.cast_zero, zero_mul, add_zero] at this
      exact hin this

theorem mem_getLinearMoves {b : Board} {r c : Int} {dirs : List (Int × Int)} {p : Piece}
    {m : Move} (hp : b.get? r c = some p) :
    m ∈ getLinearMoves b r c dirs ↔
      ∃ d ∈ dirs, m ∈ rayWalk b p.isW d.1 d.2 8 (r + d.1) (c + d.2) := by
  unfold getLinearMoves
  rw [hp]
  exact List.mem_flatMap

/-! ### View equality: boards that agree on occupancy, colors, the attacking
side's pieces and the defended king cells produce the same check verdict. -/

/-- The king-cell test used by `findKing`. -/
def kingTest (isWhite : Bool) (v : Option Piece) : Bool :=
  match v with
  | some p => decide (p.kind = Kind.king) && (if isWhite then p.isW else !p.isW)
  | none => false

/-- Number of kings of one color on the board (the `findKing` cell test,
counted over all 64 squares). -/
def kingCount (b : Board) (isWhite : Bool) : Nat :=
  squaresList.countP fun sq => kingTest isWhite (b.get? sq.1 sq.2)

/-- `checkView isWhite b b'`: the two boards have the same occupancy-and-color
picture, identical pieces of the side attacking the `isWhite` king, and the
same `isWhite`-king cells.  `isKingInCheck … isWhite` cannot tell them apart. -/
def checkView (isWhite : Bool) (b b' : Board) : Prop :=
  ∀ r c : Int,
    (b.get? r c).map Piece.isW = (b'.get? r c).map Piece.isW ∧
    (∀ p, b.get? r c = some p → (if isWhite then !p.isW else p.isW) = true →
      b'.get? r c = some p) ∧
    kingTest isWhite (b.get? r c) = kingTest isWhite (b'.get? r c)

theorem isOpponentPiece_congr {b b' : Board} {r c : Int} (w : Bool)
    (h : (b.get? r c).map Piece.isW = (b'.get? r c).map Piece.isW) :
    isOpponentPiece b r c w = isOpponentPiece b' r c w := by
  unfold isOpponentPiece
  cases hb : b.get? r c with
  | none =>
    rw [hb] at h
    cases hb' : b'.get? r c with
    | none => rfl
    | some q => rw [hb'] at h; cases h
  | some p =>
    rw [hb] at h
    cases hb' : b'.get? r c with
    | none => rw [hb'] at h; cases h
    | some q =>
      rw [hb'] at h
      simp only [Option.map_some'] at h
      show (if w = true then !p.isW else p.isW) = (if w = true then !q.isW else q.isW)
      rw [Option.some.inj h]

theorem isNone_congr {b b' : Board} {r c : Int}
    (h : (b.get? r c).map Piece.isW = (b'.get? r c).map Piece.isW) :
    (b.get? r c).isNone = (b'.get? r c).isNone := by
  cases hb : b.get? r c <;> cases hb' : b'.get? r c <;> rw [hb, hb'] at h <;> simp_all

theorem isSome_congr {b b' : Board} {r c : Int}
    (h : (b.get? r c).map Piece.isW = (b'.get? r c).map Piece.isW) :
    (b.get? r c).isSome = (b'.get? r c).isSome := by
  cases hb : b.get? r c <;> cases hb' : b'.get? r c <;> rw [hb, hb'] at h <;> simp_all

theorem offsetLoop_congr {b b' : Board} {r c : Int} {w : Bool} {offs : List (Int × Int)}
    (hview : ∀ r' c' : Int, (b.get? r' c').map Piece.isW = (b'.get? r' c').map Piece.isW) :
    (offs.filterMap fun d =>
      if isInBounds (r + d.1) (c + d.2)
          && ((b.get? (r + d.1) (c + d.2)).isNone || isOpponentPiece b (r + d.1) (c + d.2) w) then
        some (mv (r + d.1) (c + d.2))
      else none) =
    (offs.filterMap fun d =>
      if isInBounds (r + d.1) (c + d.2)
          && ((b'.get? (r + d.1) (c + d.2)).isNone || isOpponentPiece b' (r + d.1) (c + d.2) w) then
        some (mv (r + d.1) (c + d.2))
      else none) := by
  refine List.filterMap_congr fun d _ => ?_
  rw [isNone_congr (hview (r + d.1) (c + d.2)),
    isOpponentPiece_congr w (hview (r + d.1) (c + d.2))]

theorem getPawnMoves_congr {b b' : Board} {r c : Int} {p : Piece}
    (hview : ∀ r' c' : Int, (b.get? r' c').map Piece.isW = (b'.get? r' c').map Piece.isW)
    (hp : b.get? r c = some p) (hp' : b'.get? r c = some p) :
    getPawnMoves b r c = getPawnMoves b' r c := by
  unfold getPawnMoves
  rw [hp, hp']
  simp only []
  rw [isNone_congr (hview (r + (if p.isW then -1 else 1)) c),
    isNone_congr (hview (r + 2 * (if p.isW then -1 else 1)) c)]
  congr 1
  refine List.filterMap_congr fun off _ => ?_
  rw [isSome_congr (hview (r + (if p.isW then -1 else 1)) (c + off)),
    isOpponentPiece_congr p.isW (hview (r + (if p.isW then -1 else 1)) (c + off))]

theorem rayWalk_congr {b b' : Board} {w : Bool} {dr dc : Int}
    (hview : ∀ r' c' : Int, (b.get? r' c').map Piece.isW = (b'.get? r' c').map Piece.isW) :
    ∀ (fuel : Nat) (r c : Int),
    rayWalk b w dr dc fuel r c = rayWalk b' w dr dc fuel r c := by
  intro fuel
  induction fuel with
  | zero => intro r c; rfl
  | succ n ih =>
    intro r c
    simp only [rayWalk]
    by_cases hin : isInBounds r c = true
    · rw [if_pos hin, if_pos hin]
      have hv := hview r c
      cases hb : b.get? r c with
      | none =>
        rw [hb] at hv
        cases hb' : b'.get? r c with
        | none => rw [ih]
        | some q => rw [hb'] at hv; cases hv
      | some p =>
        rw [hb] at hv
        cases hb' : b'.get? r c with
        | none => rw [hb'] at hv; cases hv
        | some q =>
          rw [isOpponentPiece_congr w (hview r c)]
    · rw [if_neg hin, if_neg hin]

theorem getLinearMoves_congr {b b' : Board} {r c : Int} {p : Piece} {dirs : List (Int × Int)}
    (hview : ∀ r' c' : Int, (b.get? r' c').map Piece.isW = (b'.get? r' c').map Piece.isW)
    (hp : b.get? r c = some p) (hp' : b'.get? r c = some p) :
    getLinearMoves b r c dirs = getLinearMoves b' r c dirs := by
  unfold getLinearMoves
  rw [hp, hp']
  simp only []
  exact List.flatMap_congr fun d _ => rayWalk_congr hview 8 (r + d.1) (c + d.2)

theorem getKnightMoves_congr {b b' : Board} {r c : Int} {p : Piece}
    (hview : ∀ r' c' : Int, (b.get? r' c').map Piece.isW = (b'.get? r' c').map Piece.isW)
    (hp : b.get? r c = some p) (hp' : b'.get? r c = some p) :
    getKnightMoves b r c = getKnightMoves b' r c := by
  unfold getKnightMoves
  rw [hp, hp']
  exact offsetLoop_congr hview

theorem getBasicKingMoves_congr {b b' : Board} {r c : Int} {p : Piece}
    (hview : ∀ r' c' : Int, (b.get? r' c').map Piece.isW = (b'.get? r' c').map Piece.isW)
    (hp : b.get? r c = some p) (hp' : b'.get? r c = some p) :
    getBasicKingMoves b r c = getBasicKingMoves b' r c := by
  unfold getBasicKingMoves
  rw [hp, hp']
  exact offsetLoop_congr hview

theorem rawMoves_congr {b b' : Board} {r c : Int} {p : Piece}
    (hview : ∀ r' c' : Int, (b.get? r' c').map Piece.isW = (b'.get? r' c').map Piece.isW)
    (hp : b.get? r c = some p) (hp' : b'.get? r c = some p) :
    getValidMovesWithoutCheckValidation b r c = getValidMovesWithoutCheckValidation b' r c := by
  obtain ⟨k, pw⟩ := p
  unfold getValidMovesWithoutCheckValidation
  rw [hp, hp']
  cases k
  case king => exact getBasicKingMoves_congr hview hp hp'
  case queen => exact getLinearMoves_congr hview hp hp'
  case rook => exact getLinearMoves_congr hview hp hp'
  case bishop => exact getLinearMoves_congr hview hp hp'
  case knight => exact getKnightMoves_congr hview hp hp'
  case pawn => exact getPawnMoves_congr hview hp hp'

theorem findKing_congr {b b' : Board} {isWhite : Bool}
    (h : ∀ r c : Int, kingTest isWhite (b.get? r c) = kingTest isWhite (b'.get? r c)) :
    findKing b isWhite = findKing b' isWhite := by
  unfold findKing
  refine findCongr fun sq _ => ?_
  have := h sq.1 sq.2
  unfold kingTest at this
  exact this

/-- Boards indistinguishable through `checkView` produce the same check verdict. -/
theorem isKingInCheck_congr {b b' : Board} {isWhite : Bool}
    (h : checkView isWhite b b') :
    isKingInCheck b isWhite = isKingInCheck b' isWhite := by
  have hview : ∀ r' c' : Int, (b.get? r' c').map Piece.isW = (b'.get? r' c').map Piece.isW :=
    fun r' c' => (h r' c').1
  unfold isKingInCheck
  rw [findKing_congr fun r c => (h r c).2.2]
  cases findKing b' isWhite with
  | none => rfl
  | some kp =>
    refine anyCongr fun sq _ => ?_
    have hv := hview sq.1 sq.2
    cases hb : b.get? sq.1 sq.2 with
    | none =>
      rw [hb] at hv
      cases hb' : b'.get? sq.1 sq.2 with
      | none => rfl
      | some q => rw [hb'] at hv; cases hv
    | some p =>
      rw [hb] at hv
      cases hb' : b'.get? sq.1 sq.2 with
      | none => rw [hb'] at hv; cases hv
      | some q =>
        rw [hb'] at hv
        simp only [Option.map_some'] at hv
        by_cases hopp : (if isWhite then !p.isW else p.isW) = true
        · have hq : b'.get? sq.1 sq.2 = some p := (h sq.1 sq.2).2.1 p hb hopp
          show ((if isWhite = true then !p.isW else p.isW) &&
              (getValidMovesWithoutCheckValidation b sq.1 sq.2).any fun m =>
                decide (m.row = kp.1) && decide (m.col = kp.2)) =
            ((if isWhite = true then !q.isW else q.isW) &&
              (getValidMovesWithoutCheckValidation b' sq.1 sq.2).any fun m =>
                decide (m.row = kp.1) && decide (m.col = kp.2))
          have hqw : q.isW = p.isW := by rw [Option.some.inj (hb'.symm.trans hq)]
          rw [hqw, rawMoves_congr hview hb hq]
        · have hopp' : (if isWhite then !q.isW else q.isW) = false := by
            cases isWhite <;> simp_all
          have hoppb : (if isWhite then !p.isW else p.isW) = false := by
            cases hof : (if isWhite then !p.isW else p.isW)
            · rfl
            · exact absurd hof hopp
          show ((if isWhite = true then !p.isW else p.isW) &&
              (getValidMovesWithoutCheckValidation b sq.1 sq.2).any fun m =>
                decide (m.row = kp.1) && decide (m.col = kp.2)) =
            ((if isWhite = true then !q.isW else q.isW) &&
              (getValidMovesWithoutCheckValidation b' sq.1 sq.2).any fun m =>
                decide (m.row = kp.1) && decide (m.col = kp.2))
          rw [hoppb, hopp', Bool.false_and, Bool.false_and]

/-! ### Unfolding the check scans -/

theorem findKing_spec {b : Board} {isWhite : Bool} {kp : Int × Int}
    (h : findKing b isWhite = some kp) :
    kp ∈ squaresList ∧ ∃ kpc : Piece, b.get? kp.1 kp.2 = some kpc ∧
      kpc.kind = Kind.king ∧ (if isWhite then kpc.isW else !kpc.isW) = true := by
  have h' := h
  unfold findKing at h'
  refine ⟨List.mem_of_find?_eq_some h', ?_⟩
  have hpred := List.find?_some h'
  cases hcell : b.get? kp.1 kp.2 with
  | none => rw [hcell] at hpred; cases hpred
  | some p =>
    rw [hcell] at hpred
    rcases band_elim hpred with ⟨h1, h2⟩
    exact ⟨p, rfl, of_decide_eq_true h1, h2⟩

/-- If the board has exactly one king of a color and a given square holds a
king of that color, the row-major scan finds exactly that square. -/
theorem findKing_unique {b : Board} {isWhite : Bool} {r c : Int} {q : Piece}
    (hcount : kingCount b isWhite = 1)
    (hq : b.get? r c = some q) (hqk : q.kind = Kind.king)
    (hqw : (if isWhite then q.isW else !q.isW) = true) :
    findKing b isWhite = some (r, c) := by
  have hmem : (r, c) ∈ squaresList :=
    mem_squaresList.mpr (isInBounds_of_get?_eq_some hq)
  have hpred : (fun sq : Int × Int => match b.get? sq.1 sq.2 with
      | some p => decide (p.kind = Kind.king) && (if isWhite then p.isW else !p.isW)
      | none => false) (r, c) = true := by
    show (match b.get? r c with
      | some p => decide (p.kind = Kind.king) && (if isWhite then p.isW else !p.isW)
      | none => false) = true
    rw [hq]
    exact band_intro (decide_eq_true hqk) hqw
  cases hfk : findKing b isWhite with
  | none =>
    have : (squaresList.find? fun sq => match b.get? sq.1 sq.2 with
        | some p => decide (p.kind = Kind.king) && (if isWhite then p.isW else !p.isW)
        | none => false).isSome = true :=
      List.find?_isSome.mpr ⟨(r, c), hmem, hpred⟩
    unfold findKing at hfk
    rw [hfk] at this
    cases this
  | some kp =>
    by_cases hkp : kp = (r, c)
    · rw [hkp]
    · exfalso
      have hkpmem := List.mem_of_find?_eq_some hfk
      have hkppred := List.find?_some hfk
      have h2 : kingCount b isWhite ≥ 2 := by
        unfold kingCount
        exact two_le_countP squaresList_nodup hkpmem hmem hkp hkppred hpred
      omega

theorem isKingInCheck_true_iff {b : Board} {isWhite : Bool} :
    isKingInCheck b isWhite = true ↔
      ∃ kp, findKing b isWhite = some kp ∧
        ∃ sq ∈ squaresList, ∃ p : Piece, b.get? sq.1 sq.2 = some p ∧
          (if isWhite then !p.isW else p.isW) = true ∧
          ∃ m ∈ getValidMovesWithoutCheckValidation b sq.1 sq.2,
            m.row = kp.1 ∧ m.col = kp.2 := by
  unfold isKingInCheck
  cases hk : findKing b isWhite with
  | none =>
    constructor
    · intro h; cases h
    · rintro ⟨kp, hkp, _⟩; cases hkp
  | some kp0 =>
    constructor
    · intro h
      obtain ⟨sq, hsq, hpred⟩ := List.any_eq_true.mp h
      refine ⟨kp0, rfl, sq, hsq, ?_⟩
      have hpred' : (match b.get? sq.1 sq.2 with
          | some p => (if isWhite then !p.isW else p.isW) &&
              (getValidMovesWithoutCheckValidation b sq.1 sq.2).any fun m =>
                decide (m.row = kp0.1) && decide (m.col = kp0.2)
          | none => false) = true := hpred
      cases hcell : b.get? sq.1 sq.2 with
      | none => rw [hcell] at hpred'; cases hpred'
      | some p =>
        rw [hcell] at hpred'
        rcases band_elim hpred' with ⟨h1, h2⟩
        obtain ⟨m, hm, hmp⟩ := List.any_eq_true.mp h2
        rcases band_elim hmp with ⟨h3, h4⟩
        exact ⟨p, rfl, h1, m, hm, of_decide_eq_true h3, of_decide_eq_true h4⟩
    · rintro ⟨kp, hkp, sq, hsq, p, hcell, hopp, m, hm, hrow, hcol⟩
      have hkpe : kp0 = kp := Option.some.inj hkp
      rw [← hkpe] at hrow hcol
      refine List.any_eq_true.mpr ⟨sq, hsq, ?_⟩
      show (match b.get? sq.1 sq.2 with
          | some p => (if isWhite then !p.isW else p.isW) &&
              (getValidMovesWithoutCheckValidation b sq.1 sq.2).any fun m =>
                decide (m.row = kp0.1) && decide (m.col = kp0.2)
          | none => false) = true
      rw [hcell]
      exact band_intro hopp (List.any_eq_true.mpr
        ⟨m, hm, band_intro (decide_eq_true hrow) (decide_eq_true hcol)⟩)

theorem isSquareUnderAttack_true_iff {b : Board} {r c : Int} {isWhite : Bool} :
    isSquareUnderAttack b r c isWhite = true ↔
      ∃ sq ∈ squaresList, ∃ p : Piece, b.get? sq.1 sq.2 = some p ∧
        (if isWhite then !p.isW else p.isW) = true ∧
        ∃ m ∈ getValidMovesWithoutCheckValidation b sq.1 sq.2,
          m.row = r ∧ m.col = c := by
  unfold isSquareUnderAttack
  constructor
  · intro h
    obtain ⟨sq, hsq, hpred⟩ := List.any_eq_true.mp h
    refine ⟨sq, hsq, ?_⟩
    have hpred' : (match b.get? sq.1 sq.2 with
        | some p => (if isWhite then !p.isW else p.isW) &&
            (getValidMovesWithoutCheckValidation b sq.1 sq.2).any fun m =>
              decide (m.row = r) && decide (m.col = c)
        | none => false) = true := hpred
    cases hcell : b.get? sq.1 sq.2 with
    | none => rw [hcell] at hpred'; cases hpred'
    | some p =>
      rw [hcell] at hpred'
      rcases band_elim hpred' with ⟨h1, h2⟩
      obtain ⟨m, hm, hmp⟩ := List.any_eq_true.mp h2
      rcases band_elim hmp with ⟨h3, h4⟩
      exact ⟨p, rfl, h1, m, hm, of_decide_eq_true h3, of_decide_eq_true h4⟩
  · rintro ⟨sq, hsq, p, hcell, hopp, m, hm, hrow, hcol⟩
    refine List.any_eq_true.mpr ⟨sq, hsq, ?_⟩
    show (match b.get? sq.1 sq.2 with
        | some p => (if isWhite then !p.isW else p.isW) &&
            (getValidMovesWithoutCheckValidation b sq.1 sq.2).any fun m =>
              decide (m.row = r) && decide (m.col = c)
        | none => false) = true
    rw [hcell]
    exact band_intro hopp (List.any_eq_true.mpr
      ⟨m, hm, band_intro (decide_eq_true hrow) (decide_eq_true hcol)⟩)

/-- A corner of the board is never strictly between two in-bounds squares of a
queen-direction line: vacating a corner square cannot open an attack line. -/
theorem corner_not_between {ar ac dr dc cr cc : Int} {t T : Nat}
    (hdr : dr = -1 ∨ dr = 0 ∨ dr = 1) (hdc : dc = -1 ∨ dc = 0 ∨ dc = 1)
    (hne : ¬(dr = 0 ∧ dc = 0))
    (hcr : cr = 0 ∨ cr = 7) (hcc : cc = 0 ∨ cc = 7)
    (h0 : isInBounds ar ac = true)
    (hT : isInBounds (ar + (T : Int) * dr) (ac + (T : Int) * dc) = true)
    (ht : 0 < t) (htT : t < T)
    (heqr : ar + (t : Int) * dr = cr) (heqc : ac + (t : Int) * dc = cc) : False := by
  rw [isInBounds_iff] at h0 hT
  rcases hdr with rfl | rfl | rfl <;> rcases hdc with rfl | rfl | rfl <;>
    rcases hcr with rfl | rfl <;> rcases hcc with rfl | rfl <;>
    first
    | exact hne ⟨rfl, rfl⟩
    | omega

/-! ### Kind-specific unfoldings of the pseudo-legal generator -/

theorem isOpponentPiece_eq_of_get?_eq {b b' : Board} {r c : Int} (w : Bool)
    (h : b.get? r c = b'.get? r c) :
    isOpponentPiece b r c w = isOpponentPiece b' r c w := by
  unfold isOpponentPiece
  rw [h]

theorem rawMoves_eq_pawn {b : Board} {r c : Int} {p : Piece}
    (hp : b.get? r c = some p) (hk : p.kind = Kind.pawn) :
    getValidMovesWithoutCheckValidation b r c = getPawnMoves b r c := by
  unfold getValidMovesWithoutCheckValidation
  rw [hp]
  dsimp only
  rw [hk]

theorem rawMoves_eq_rook {b : Board} {r c : Int} {p : Piece}
    (hp : b.get? r c = some p) (hk : p.kind = Kind.rook) :
    getValidMovesWithoutCheckValidation b r c = getRookMoves b r c := by
  unfold getValidMovesWithoutCheckValidation
  rw [hp]
  dsimp only
  rw [hk]

theorem rawMoves_eq_knight {b : Board} {r c : Int} {p : Piece}
    (hp : b.get? r c = some p) (hk : p.kind = Kind.knight) :
    getValidMovesWithoutCheckValidation b r c = getKnightMoves b r c := by
  unfold getValidMovesWithoutCheckValidation
  rw [hp]
  dsimp only
  rw [hk]

theorem rawMoves_eq_bishop {b : Board} {r c : Int} {p : Piece}
    (hp : b.get? r c = some p) (hk : p.kind = Kind.bishop) :
    getValidMovesWithoutCheckValidation b r c = getBishopMoves b r c := by
  unfold getValidMovesWithoutCheckValidation
  rw [hp]
  dsimp only
  rw [hk]

theorem rawMoves_eq_queen {b : Board} {r c : Int} {p : Piece}
    (hp : b.get? r c = some p) (hk : p.kind = Kind.queen) :
    getValidMovesWithoutCheckValidation b r c = getQueenMoves b r c := by
  unfold getValidMovesWithoutCheckValidation
  rw [hp]
  dsimp only
  rw [hk]

theorem rawMoves_eq_king {b : Board} {r c : Int} {p : Piece}
    (hp : b.get? r c = some p) (hk : p.kind = Kind.king) :
    getValidMovesWithoutCheckValidation b r c = getBasicKingMoves b r c := by
  unfold getValidMovesWithoutCheckValidation
  rw [hp]
  dsimp only
  rw [hk]

theorem rookDirs_props :
    ∀ d ∈ ([(-1, 0), (1, 0), (0, -1), (0, 1)] : List (Int × Int)),
      (d.1 = -1 ∨ d.1 = 0 ∨ d.1 = 1) ∧ (d.2 = -1 ∨ d.2 = 0 ∨ d.2 = 1) ∧
        ¬(d.1 = 0 ∧ d.2 = 0) := by decide

theorem bishopDirs_props :
    ∀ d ∈ ([(-1, -1), (-1, 1), (1, -1), (1, 1)] : List (Int × Int)),
      (d.1 = -1 ∨ d.1 = 0 ∨ d.1 = 1) ∧ (d.2 = -1 ∨ d.2 = 0 ∨ d.2 = 1) ∧
        ¬(d.1 = 0 ∧ d.2 = 0) := by decide

theorem queenDirs_props :
    ∀ d ∈ ([(-1, 0), (1, 0), (0, -1), (0, 1), (-1, -1), (-1, 1), (1, -1), (1, 1)] :
        List (Int × Int)),
      (d.1 = -1 ∨ d.1 = 0 ∨ d.1 = 1) ∧ (d.2 = -1 ∨ d.2 = 0 ∨ d.2 = 1) ∧
        ¬(d.1 = 0 ∧ d.2 = 0) := by decide

/-! ### Attack transfer: relocating the mover's rook from a corner to an empty
square during castling cannot create a new attack on an occupied square. -/

theorem pawn_transfer {b1 b2 : Board} {kp : Int × Int} {kpc : Piece}
    (hkp1 : b1.get? kp.1 kp.2 = some kpc) (hkp2 : b2.get? kp.1 kp.2 = some kpc)
    {ar ac : Int} {p : Piece}
    (hcell1 : b1.get? ar ac = some p) (hcell2 : b2.get? ar ac = some p)
    {m : Move} (hm : m ∈ getPawnMoves b2 ar ac)
    (hrow : m.row = kp.1) (hcol : m.col = kp.2) :
    m ∈ getPawnMoves b1 ar ac := by
  rcases (mem_getPawnMoves hcell2 rfl rfl).mp hm with
    ⟨hin1, hnone1, hm12⟩ | ⟨off, hoff, hmeq, hin, hsome, hoppc⟩
  · exfalso
    rcases hm12 with hmeq | ⟨hsr, hnone2, hmeq⟩
    · subst hmeq
      have e1 : ar + (if p.isW then -1 else 1) = kp.1 := hrow
      have e2 : ac = kp.2 := hcol
      rw [e1, e2] at hnone1
      rw [hnone1] at hkp2
      cases hkp2
    · subst hmeq
      have e1 : ar + 2 * (if p.isW then -1 else 1) = kp.1 := hrow
      have e2 : ac = kp.2 := hcol
      rw [e1, e2] at hnone2
      rw [hnone2] at hkp2
      cases hkp2
  · subst hmeq
    have e1 : ar + (if p.isW then -1 else 1) = kp.1 := hrow
    have e2 : ac + off = kp.2 := hcol
    refine (mem_getPawnMoves hcell1 rfl rfl).mpr (Or.inr ⟨off, hoff, rfl, hin, ?_, ?_⟩)
    · rw [e1, e2, hkp1]
      rfl
    · rw [e1, e2]
      rw [e1, e2] at hoppc
      rw [isOpponentPiece_eq_of_get?_eq p.isW (hkp1.trans hkp2.symm)]
      exact hoppc

theorem knight_transfer {b1 b2 : Board} {kp : Int × Int} {kpc : Piece}
    (hkp1 : b1.get? kp.1 kp.2 = some kpc) (hkp2 : b2.get? kp.1 kp.2 = some kpc)
    {ar ac : Int} {p : Piece}
    (hcell1 : b1.get? ar ac = some p) (hcell2 : b2.get? ar ac = some p)
    {m : Move} (hm : m ∈ getKnightMoves b2 ar ac)
    (hrow : m.row = kp.1) (hcol : m.col = kp.2) :
    m ∈ getKnightMoves b1 ar ac := by
  obtain ⟨d, hd, hmeq, hib, hdisj⟩ := (mem_getKnightMoves hcell2).mp hm
  subst hmeq
  have e1 : ar + d.1 = kp.1 := hrow
  have e2 : ac + d.2 = kp.2 := hcol
  refine (mem_getKnightMoves hcell1).mpr ⟨d, hd, rfl, hib, ?_⟩
  rw [e1, e2] at hdisj ⊢
  rcases hdisj with h | h
  · rw [h] at hkp2; cases hkp2
  · exact Or.inr (by
      rw [isOpponentPiece_eq_of_get?_eq p.isW (hkp1.trans hkp2.symm)]
      exact h)

theorem bking_transfer {b1 b2 : Board} {kp : Int × Int} {kpc : Piece}
    (hkp1 : b1.get? kp.1 kp.2 = some kpc) (hkp2 : b2.get? kp.1 kp.2 = some kpc)
    {ar ac : Int} {p : Piece}
    (hcell1 : b1.get? ar ac = some p) (hcell2 : b2.get? ar ac = some p)
    {m : Move} (hm : m ∈ getBasicKingMoves b2 ar ac)
    (hrow : m.row = kp.1) (hcol : m.col = kp.2) :
    m ∈ getBasicKingMoves b1 ar ac := by
  obtain ⟨d, hd, hmeq, hib, hdisj⟩ := (mem_getBasicKingMoves hcell2).mp hm
  subst hmeq
  have e1 : ar + d.1 = kp.1 := hrow
  have e2 : ac + d.2 = kp.2 := hcol
  refine (mem_getBasicKingMoves hcell1).mpr ⟨d, hd, rfl, hib, ?_⟩
  rw [e1, e2] at hdisj ⊢
  rcases hdisj with h | h
  · rw [h] at hkp2; cases hkp2
  · exact Or.inr (by
      rw [isOpponentPiece_eq_of_get?_eq p.isW (hkp1.trans hkp2.symm)]
      exact h)

theorem linear_transfer {b1 b2 : Board} {base cornerC newC : Int} {rp : Piece}
    (hbase : base = 7 ∨ base = 0) (hcorner : cornerC = 0 ∨ cornerC = 7)
    (hb2new : b2.get? base newC = some rp)
    (hother : ∀ r c : Int, ¬(r = base ∧ c = cornerC) → ¬(r = base ∧ c = newC) →
        b2.get? r c = b1.get? r c)
    {kp : Int × Int} {kpc : Piece}
    (hkp1 : b1.get? kp.1 kp.2 = some kpc) (hkp2 : b2.get? kp.1 kp.2 = some kpc)
    {ar ac : Int} {p : Piece}
    (hcell1 : b1.get? ar ac = some p) (hcell2 : b2.get? ar ac = some p)
    {dirs : List (Int × Int)}
    (hdirs : ∀ d ∈ dirs, (d.1 = -1 ∨ d.1 = 0 ∨ d.1 = 1) ∧ (d.2 = -1 ∨ d.2 = 0 ∨ d.2 = 1) ∧
        ¬(d.1 = 0 ∧ d.2 = 0))
    {m : Move} (hm : m ∈ getLinearMoves b2 ar ac dirs)
    (hrow : m.row = kp.1) (hcol : m.col = kp.2) :
    m ∈ getLinearMoves b1 ar ac dirs := by
  obtain ⟨d, hd, hray⟩ := (mem_getLinearMoves hcell2).mp hm
  obtain ⟨hd1, hd2, hd0⟩ := hdirs d hd
  obtain ⟨j, hj, hmeq, hib, hmt, hlast⟩ := (mem_rayWalk 8 (ar + d.1) (ac + d.2) m).mp hray
  subst hmeq
  have e1 : ar + d.1 + (j : Int) * d.1 = kp.1 := hrow
  have e2 : ac + d.2 + (j : Int) * d.2 = kp.2 := hcol
  have hkpb : isInBounds kp.1 kp.2 = true := isInBounds_of_get?_eq_some hkp1
  have hTb : isInBounds (ar + ((j + 1 : Nat) : Int) * d.1) (ac + ((j + 1 : Nat) : Int) * d.2)
      = true := by
    have g1 : ar + ((j + 1 : Nat) : Int) * d.1 = kp.1 := by
      rw [← e1]; push_cast; ring
    have g2 : ac + ((j + 1 : Nat) : Int) * d.2 = kp.2 := by
      rw [← e2]; push_cast; ring
    rw [g1, g2]; exact hkpb
  refine (mem_getLinearMoves hcell1).mpr
    ⟨d, hd, (mem_rayWalk 8 (ar + d.1) (ac + d.2) _).mpr ⟨j, hj, rfl, hib, ?_, ?_⟩⟩
  · intro i hi
    have h2 := hmt i hi
    have hnotnew : ¬(ar + d.1 + (i : Int) * d.1 = base ∧ ac + d.2 + (i : Int) * d.2 = newC) := by
      rintro ⟨f1, f2⟩
      rw [f1, f2] at h2
      rw [h2] at hb2new
      cases hb2new
    have hnotcorner : ¬(ar + d.1 + (i : Int) * d.1 = base ∧
        ac + d.2 + (i : Int) * d.2 = cornerC) := by
      rintro ⟨f1, f2⟩
      refine corner_not_between hd1 hd2 hd0 (Or.symm hbase) hcorner
        (isInBounds_of_get?_eq_some hcell1) hTb
        (by omega : 0 < i + 1) (by omega : i + 1 < j + 1) ?_ ?_
      · calc ar + ((i + 1 : Nat) : Int) * d.1 = ar + d.1 + (i : Int) * d.1 := by push_cast; ring
          _ = base := f1
      · calc ac + ((i + 1 : Nat) : Int) * d.2 = ac + d.2 + (i : Int) * d.2 := by push_cast; ring
          _ = cornerC := f2
    rw [← hother _ _ hnotcorner hnotnew]
    exact h2
  · rw [e1, e2] at hlast ⊢
    rcases hlast with h | h
    · rw [h] at hkp2; cases hkp2
    · exact Or.inr (by
        rw [isOpponentPiece_eq_of_get?_eq p.isW (hkp1.trans hkp2.symm)]
        exact h)

theorem rawMoves_transfer {b1 b2 : Board} {base cornerC newC : Int} {rp : Piece}
    (hbase : base = 7 ∨ base = 0) (hcorner : cornerC = 0 ∨ cornerC = 7)
    (hb2new : b2.get? base newC = some rp)
    (hother : ∀ r c : Int, ¬(r = base ∧ c = cornerC) → ¬(r = base ∧ c = newC) →
        b2.get? r c = b1.get? r c)
    {kp : Int × Int} {kpc : Piece}
    (hkp1 : b1.get? kp.1 kp.2 = some kpc) (hkp2 : b2.get? kp.1 kp.2 = some kpc)
    {ar ac : Int} {p : Piece}
    (hcell1 : b1.get? ar ac = some p) (hcell2 : b2.get? ar ac = some p)
    {m : Move} (hm : m ∈ getValidMovesWithoutCheckValidation b2 ar ac)
    (hrow : m.row = kp.1) (hcol : m.col = kp.2) :
    m ∈ getValidMovesWithoutCheckValidation b1 ar ac := by
  cases hk : p.kind with
  | pawn =>
    rw [rawMoves_eq_pawn hcell2 hk] at hm
    rw [rawMoves_eq_pawn hcell1 hk]
    exact pawn_transfer hkp1 hkp2 hcell1 hcell2 hm hrow hcol
  | knight =>
    rw [rawMoves_eq_knight hcell2 hk] at hm
    rw [rawMoves_eq_knight hcell1 hk]
    exact knight_transfer hkp1 hkp2 hcell1 hcell2 hm hrow hcol
  | king =>
    rw [rawMoves_eq_king hcell2 hk] at hm
    rw [rawMoves_eq_king hcell1 hk]
    exact bking_transfer hkp1 hkp2 hcell1 hcell2 hm hrow hcol
  | rook =>
    rw [rawMoves_eq_rook hcell2 hk] at hm
    rw [rawMoves_eq_rook hcell1 hk]
    unfold getRookMoves at hm ⊢
    exact linear_transfer hbase hcorner hb2new hother hkp1 hkp2 hcell1 hcell2
      rookDirs_props hm hrow hcol
  | bishop =>
    rw [rawMoves_eq_bishop hcell2 hk] at hm
    rw [rawMoves_eq_bishop hcell1 hk]
    unfold getBishopMoves at hm ⊢
    exact linear_transfer hbase hcorner hb2new hother hkp1 hkp2 hcell1 hcell2
      bishopDirs_props hm hrow hcol
  | queen =>
    rw [rawMoves_eq_queen hcell2 hk] at hm
    rw [rawMoves_eq_queen hcell1 hk]
    unfold getQueenMoves at hm ⊢
    exact linear_transfer hbase hcorner hb2new hother hkp1 hkp2 hcell1 hcell2
      queenDirs_props hm hrow hcol

/-- The castling rook relocation (same-colored rook from a board corner to a
previously empty square of the king's rank) never turns a check-free position
into check for the castling side. -/
theorem check_transfer {b1 : Board} {isWhite : Bool} {base cornerC newC : Int} {rp : Piece}
    (hbase : base = 7 ∨ base = 0) (hcorner : cornerC = 0 ∨ cornerC = 7)
    (hnewC : newC = 3 ∨ newC = 5)
    (hrook : b1.get? base cornerC = some rp) (hrpk : rp.kind = Kind.rook)
    (hrpw : rp.isW = isWhite)
    (hnew1 : b1.get? base newC = none)
    (hchk : isKingInCheck b1 isWhite = false) :
    isKingInCheck ((b1.set base newC (some rp)).set base cornerC none) isWhite = false := by
  set b2 := (b1.set base newC (some rp)).set base cornerC none with hb2def
  have hbc : isInBounds base cornerC = true := isInBounds_of_get?_eq_some hrook
  have hbn : isInBounds base newC = true := by
    rw [isInBounds_iff]
    rcases hbase with rfl | rfl <;> rcases hnewC with rfl | rfl <;> norm_num
  have hncn : ¬(base = base ∧ newC = cornerC) := by
    rintro ⟨-, e⟩
    rcases hcorner with rfl | rfl <;> rcases hnewC with rfl | rfl <;> omega
  have hb2corner : b2.get? base cornerC = none := by
    rw [hb2def]
    exact Board.get?_set_self _ _ hbc
  have hb2new : b2.get? base newC = some rp := by
    rw [hb2def]
    rw [Board.get?_set_ne _ _ hncn, Board.get?_set_self _ _ hbn]
  have hother : ∀ r c : Int, ¬(r = base ∧ c = cornerC) → ¬(r = base ∧ c = newC) →
      b2.get? r c = b1.get? r c := by
    intro r c h1 h2
    rw [hb2def, Board.get?_set_ne _ _ h1, Board.get?_set_ne _ _ h2]
  have hkt : ∀ r c : Int, kingTest isWhite (b1.get? r c) = kingTest isWhite (b2.get? r c) := by
    intro r c
    by_cases h1 : r = base ∧ c = cornerC
    · obtain ⟨e1, e2⟩ := h1
      rw [e1, e2, hrook, hb2corner]
      simp [kingTest, hrpk]
    · by_cases h2 : r = base ∧ c = newC
      · obtain ⟨e1, e2⟩ := h2
        rw [e1, e2, hnew1, hb2new]
        simp [kingTest, hrpk]
      · rw [hother r c h1 h2]
  have hfk : findKing b1 isWhite = findKing b2 isWhite := findKing_congr hkt
  cases h2 : isKingInCheck b2 isWhite with
  | false => rfl
  | true =>
    exfalso
    obtain ⟨kp, hkp2find, sq, hsq, p, hcell2, hopp, m, hm, hrow, hcol⟩ :=
      isKingInCheck_true_iff.mp h2
    obtain ⟨-, kpc, hkp2cell, hkpck, hkpcw⟩ := findKing_spec hkp2find
    have hkpnotcorner : ¬(kp.1 = base ∧ kp.2 = cornerC) := by
      rintro ⟨e1, e2⟩
      rw [e1, e2, hb2corner] at hkp2cell
      cases hkp2cell
    have hkpnotnew : ¬(kp.1 = base ∧ kp.2 = newC) := by
      rintro ⟨e1, e2⟩
      rw [e1, e2, hb2new] at hkp2cell
      have e := Option.some.inj hkp2cell
      rw [← e, hrpk] at hkpck
      exact (by decide : Kind.rook ≠ Kind.king) hkpck
    have hkp1cell : b1.get? kp.1 kp.2 = some kpc := by
      rw [← hother kp.1 kp.2 hkpnotcorner hkpnotnew]
      exact hkp2cell
    have hsqnotcorner : ¬(sq.1 = base ∧ sq.2 = cornerC) := by
      rintro ⟨e1, e2⟩
      rw [e1, e2, hb2corner] at hcell2
      cases hcell2
    have hsqnotnew : ¬(sq.1 = base ∧ sq.2 = newC) := by
      rintro ⟨e1, e2⟩
      rw [e1, e2, hb2new] at hcell2
      have e := Option.some.inj hcell2
      rw [← e, hrpw] at hopp
      cases isWhite <;> simp_all
    have hcell1 : b1.get? sq.1 sq.2 = some p := by
      rw [← hother _ _ hsqnotcorner hsqnotnew]
      exact hcell2
    have hm1 : m ∈ getValidMovesWithoutCheckValidation b1 sq.1 sq.2 :=
      rawMoves_transfer hbase hcorner hb2new hother hkp1cell hkp2cell hcell1 hcell2
        hm hrow hcol
    have hkp1find : findKing b1 isWhite = some kp := by
      rw [hfk]
      exact hkp2find
    have hc1 : isKingInCheck b1 isWhite = true :=
      isKingInCheck_true_iff.mpr ⟨kp, hkp1find, sq, hsq, p, hcell1, hopp, m, hm1, hrow, hcol⟩
    rw [hchk] at hc1
    cases hc1

/-! ### Unfolding castling candidate generation -/

theorem bnot_elim {b : Bool} (h : (!b) = true) : b = false := by
  cases b
  · rfl
  · cases h

theorem not_eq_true_iff_eq_false {b : Bool} : ¬(b = true) ↔ b = false := by
  cases b <;> simp

/-- Everything the source checks before pushing a castling candidate. -/
theorem mem_getCastlingMoves {g : GameState} {row col : Int} {isWhite : Bool} {m : Move}
    (hm : m ∈ getCastlingMoves g row col isWhite) :
    isKingInCheck g.board isWhite = false ∧
    (if isWhite then g.hasMoved.whiteKing else g.hasMoved.blackKing) = false ∧
    ((m = ⟨if isWhite then 7 else 0, 6, true, 7⟩ ∧
      (if isWhite then g.hasMoved.whiteRookRight else g.hasMoved.blackRookRight) = false ∧
      g.board.get? (if isWhite then 7 else 0) 5 = none ∧
      g.board.get? (if isWhite then 7 else 0) 6 = none ∧
      (∃ p : Piece, g.board.get? (if isWhite then 7 else 0) 7 = some p ∧ p.kind = Kind.rook) ∧
      isSquareUnderAttack g.board (if isWhite then 7 else 0) 5 isWhite = false ∧
      isSquareUnderAttack g.board (if isWhite then 7 else 0) 6 isWhite = false) ∨
     (m = ⟨if isWhite then 7 else 0, 2, true, 0⟩ ∧
      (if isWhite then g.hasMoved.whiteRookLeft else g.hasMoved.blackRookLeft) = false ∧
      g.board.get? (if isWhite then 7 else 0) 1 = none ∧
      g.board.get? (if isWhite then 7 else 0) 2 = none ∧
      g.board.get? (if isWhite then 7 else 0) 3 = none ∧
      (∃ p : Piece, g.board.get? (if isWhite then 7 else 0) 0 = some p ∧ p.kind = Kind.rook) ∧
      isSquareUnderAttack g.board (if isWhite then 7 else 0) 2 isWhite = false ∧
      isSquareUnderAttack g.board (if isWhite then 7 else 0) 3 isWhite = false)) := by
  unfold getCastlingMoves at hm
  by_cases hchk : isKingInCheck g.board isWhite = true
  · rw [if_pos hchk] at hm; cases hm
  · rw [if_neg hchk] at hm
    have hchk' : isKingInCheck g.board isWhite = false := not_eq_true_iff_eq_false.mp hchk
    dsimp only at hm
    by_cases hkm : (if isWhite then g.hasMoved.whiteKing else g.hasMoved.blackKing) = true
    · rw [if_pos hkm] at hm; cases hm
    · rw [if_neg hkm] at hm
      refine ⟨hchk', not_eq_true_iff_eq_false.mp hkm, ?_⟩
      rcases List.mem_append.mp hm with hks | hqs
      · left
        by_cases h1 : (!(if isWhite then g.hasMoved.whiteRookRight else g.hasMoved.blackRookRight)
            && (g.board.get? (if isWhite then (7 : Int) else 0) 5).isNone
            && (g.board.get? (if isWhite then (7 : Int) else 0) 6).isNone
            && (match g.board.get? (if isWhite then (7 : Int) else 0) 7 with
                | some p => decide (p.kind = Kind.rook)
                | none => false)) = true
        · rw [if_pos h1] at hks
          by_cases h2 : (!isSquareUnderAttack g.board (if isWhite then (7 : Int) else 0) 5 isWhite
              && !isSquareUnderAttack g.board (if isWhite then (7 : Int) else 0) 6 isWhite) = true
          · rw [if_pos h2] at hks
            have hmeq := List.mem_singleton.mp hks
            obtain ⟨h12, hrk⟩ := band_elim h1
            obtain ⟨h13, h6n⟩ := band_elim h12
            obtain ⟨h14, h5n⟩ := band_elim h13
            obtain ⟨ha5, ha6⟩ := band_elim h2
            refine ⟨hmeq, bnot_elim h14, Option.isNone_iff_eq_none.mp h5n,
              Option.isNone_iff_eq_none.mp h6n, ?_, bnot_elim ha5, bnot_elim ha6⟩
            cases hc : g.board.get? (if isWhite then (7 : Int) else 0) 7 with
            | none => rw [hc] at hrk; cases hrk
            | some p =>
              rw [hc] at hrk
              exact ⟨p, rfl, of_decide_eq_true hrk⟩
          · rw [if_neg h2] at hks; cases hks
        · rw [if_neg h1] at hks; cases hks
      · right
        by_cases h1 : (!(if isWhite then g.hasMoved.whiteRookLeft else g.hasMoved.blackRookLeft)
            && (g.board.get? (if isWhite then (7 : Int) else 0) 1).isNone
            && (g.board.get? (if isWhite then (7 : Int) else 0) 2).isNone
            && (g.board.get? (if isWhite then (7 : Int) else 0) 3).isNone
            && (match g.board.get? (if isWhite then (7 : Int) else 0) 0 with
                | some p => decide (p.kind = Kind.rook)
                | none => false)) = true
        · rw [if_pos h1] at hqs
          by_cases h2 : (!isSquareUnderAttack g.board (if isWhite then (7 : Int) else 0) 2 isWhite
              && !isSquareUnderAttack g.board (if isWhite then (7 : Int) else 0) 3 isWhite) = true
          · rw [if_pos h2] at hqs
            have hmeq := List.mem_singleton.mp hqs
            obtain ⟨h12, hrk⟩ := band_elim h1
            obtain ⟨h13, h3n⟩ := band_elim h12
            obtain ⟨h14, h2n⟩ := band_elim h13
            obtain ⟨h15, h1n⟩ := band_elim h14
            obtain ⟨ha2, ha3⟩ := band_elim h2
            refine ⟨hmeq, bnot_elim h15, Option.isNone_iff_eq_none.mp h1n,
              Option.isNone_iff_eq_none.mp h2n, Option.isNone_iff_eq_none.mp h3n, ?_,
              bnot_elim ha2, bnot_elim ha3⟩
            cases hc : g.board.get? (if isWhite then (7 : Int) else 0) 0 with
            | none => rw [hc] at hrk; cases hrk
            | some p =>
              rw [hc] at hrk
              exact ⟨p, rfl, of_decide_eq_true hrk⟩
          · rw [if_neg h2] at hqs; cases hqs
        · rw [if_neg h1] at hqs; cases hqs

/-- A generated castling candidate always has a rook of the castling side's
own color on the corner square `(baseRow, rookCol)`: the source only tests the
letter (`toLowerCase() === 'r'`), but an enemy rook there would attack the
(empty) transit squares along the rank and fail the attack gate. -/
theorem castling_corner_rook {g : GameState} {row col : Int} {isWhite : Bool} {m : Move}
    (hm : m ∈ getCastlingMoves g row col isWhite) :
    ∃ p : Piece, g.board.get? (if isWhite then 7 else 0) m.rookCol = some p ∧
      p.kind = Kind.rook ∧ p.isW = isWhite := by
  rcases mem_getCastlingMoves hm with ⟨hchk, hkm, hside⟩
  rcases hside with ⟨hmeq, hflag, h5n, h6n, ⟨p, hp7, hpk⟩, ha5, ha6⟩ |
    ⟨hmeq, hflag, h1n, h2n, h3n, ⟨p, hp0, hpk⟩, ha2, ha3⟩
  · subst hmeq
    refine ⟨p, hp7, hpk, ?_⟩
    by_contra hne
    have hopp : (if isWhite then !p.isW else p.isW) = true := by
      cases isWhite <;> cases hw : p.isW <;> simp_all
    have hb7 : isInBounds (if isWhite then (7 : Int) else 0) 7 = true :=
      isInBounds_of_get?_eq_some hp7
    have hb6 : isInBounds (if isWhite then (7 : Int) else 0) 6 = true := by
      rw [isInBounds_iff] at hb7 ⊢
      omega
    have hatt : isSquareUnderAttack g.board (if isWhite then (7 : Int) else 0) 6 isWhite
        = true := by
      refine isSquareUnderAttack_true_iff.mpr
        ⟨((if isWhite then (7 : Int) else 0), 7), mem_squaresList.mpr hb7, p, hp7, hopp, ?_⟩
      rw [rawMoves_eq_rook hp7 hpk]
      unfold getRookMoves
      refine ⟨mv ((if isWhite then (7 : Int) else 0) + 0 + ((0 : Nat) : Int) * 0)
        (7 + -1 + ((0 : Nat) : Int) * -1), ?_, ?_, ?_⟩
      · refine (mem_getLinearMoves hp7).mpr ⟨(0, -1), by decide, ?_⟩
        refine (mem_rayWalk 8 _ _ _).mpr ⟨0, by omega, rfl, ?_, ?_, ?_⟩
        · intro i hi
          have hi0 : i = 0 := by omega
          subst hi0
          have er : (if isWhite then (7 : Int) else 0) + 0 + ((0 : Nat) : Int) * 0
              = (if isWhite then (7 : Int) else 0) := by norm_num
          have ec : (7 : Int) + -1 + ((0 : Nat) : Int) * -1 = 6 := by norm_num
          rw [er, ec]
          exact hb6
        · intro i hi
          exact absurd hi (by omega)
        · left
          have er : (if isWhite then (7 : Int) else 0) + 0 + ((0 : Nat) : Int) * 0
              = (if isWhite then (7 : Int) else 0) := by norm_num
          have ec : (7 : Int) + -1 + ((0 : Nat) : Int) * -1 = 6 := by norm_num
          rw [er, ec]
          exact h6n
      · show (if isWhite then (7 : Int) else 0) + 0 + ((0 : Nat) : Int) * 0
          = (if isWhite then (7 : Int) else 0)
        norm_num
      · show (7 : Int) + -1 + ((0 : Nat) : Int) * -1 = 6
        norm_num
    rw [hatt] at ha6
    cases ha6
  · subst hmeq
    refine ⟨p, hp0, hpk, ?_⟩
    by_contra hne
    have hopp : (if isWhite then !p.isW else p.isW) = true := by
      cases isWhite <;> cases hw : p.isW <;> simp_all
    have hb0 : isInBounds (if isWhite then (7 : Int) else 0) 0 = true :=
      isInBounds_of_get?_eq_some hp0
    have hb1 : isInBounds (if isWhite then (7 : Int) else 0) 1 = true := by
      rw [isInBounds_iff] at hb0 ⊢
      omega
    have hb2 : isInBounds (if isWhite then (7 : Int) else 0) 2 = true := by
      rw [isInBounds_iff] at hb0 ⊢
      omega
    have hatt : isSquareUnderAttack g.board (if isWhite then (7 : Int) else 0) 2 isWhite
        = true := by
      refine isSquareUnderAttack_true_iff.mpr
        ⟨((if isWhite then (7 : Int) else 0), 0), mem_squaresList.mpr hb0, p, hp0, hopp, ?_⟩
      rw [rawMoves_eq_rook hp0 hpk]
      unfold getRookMoves
      refine ⟨mv ((if isWhite then (7 : Int) else 0) + 0 + ((1 : Nat) : Int) * 0)
        (0 + 1 + ((1 : Nat) : Int) * 1), ?_, ?_, ?_⟩
      · refine (mem_getLinearMoves hp0).mpr ⟨(0, 1), by decide, ?_⟩
        refine (mem_rayWalk 8 _ _ _).mpr ⟨1, by omega, rfl, ?_, ?_, ?_⟩
        · intro i hi
          interval_cases i
          · have er : (if isWhite then (7 : Int) else 0) + 0 + ((0 : Nat) : Int) * 0
                = (if isWhite then (7 : Int) else 0) := by norm_num
            have ec : (0 : Int) + 1 + ((0 : Nat) : Int) * 1 = 1 := by norm_num
            rw [er, ec]
            exact hb1
          · have er : (if isWhite then (7 : Int) else 0) + 0 + ((1 : Nat) : Int) * 0
                = (if isWhite then (7 : Int) else 0) := by norm_num
            have ec : (0 : Int) + 1 + ((1 : Nat) : Int) * 1 = 2 := by norm_num
            rw [er, ec]
            exact hb2
        · intro i hi
          have hi0 : i = 0 := by omega
          subst hi0
          have er : (if isWhite then (7 : Int) else 0) + 0 + ((0 : Nat) : Int) * 0
              = (if isWhite then (7 : Int) else 0) := by norm_num
          have ec : (0 : Int) + 1 + ((0 : Nat) : Int) * 1 = 1 := by norm_num
          rw [er, ec]
          exact h1n
        · left
          have er : (if isWhite then (7 : Int) else 0) + 0 + ((1 : Nat) : Int) * 0
              = (if isWhite then (7 : Int) else 0) := by norm_num
          have ec : (0 : Int) + 1 + ((1 : Nat) : Int) * 1 = 2 := by norm_num
          rw [er, ec]
          exact h2n
      · show (if isWhite then (7 : Int) else 0) + 0 + ((1 : Nat) : Int) * 0
          = (if isWhite then (7 : Int) else 0)
        norm_num
      · show (0 : Int) + 1 + ((1 : Nat) : Int) * 1 = 2
        norm_num
    rw [hatt] at ha2
    cases ha2

/-! ### The legal move filter and the move applier, unfolded -/

theorem bnot_true_iff {b : Bool} : (!b) = true ↔ b = false := by
  cases b <;> simp

theorem mem_getValidMoves_iff {g : GameState} {r c : Int} {p : Piece} {m : Move}
    (hp : g.board.get? r c = some p) :
    m ∈ getValidMoves g r c ↔
      ((if p.kind = Kind.king then m ∈ getKingMoves g r c
        else m ∈ getValidMovesWithoutCheckValidation g.board r c) ∧
       wouldBeInCheck g.board r c m.row m.col = false) := by
  obtain ⟨k, pw⟩ := p
  unfold getValidMoves
  rw [hp]
  dsimp only
  rw [List.mem_filter]
  cases k
  case king =>
    rw [if_pos rfl, bnot_true_iff]
  case pawn =>
    rw [if_neg (by decide), rawMoves_eq_pawn hp rfl, bnot_true_iff]
  case rook =>
    rw [if_neg (by decide), rawMoves_eq_rook hp rfl, bnot_true_iff]
  case knight =>
    rw [if_neg (by decide), rawMoves_eq_knight hp rfl, bnot_true_iff]
  case bishop =>
    rw [if_neg (by decide), rawMoves_eq_bishop hp rfl, bnot_true_iff]
  case queen =>
    rw [if_neg (by decide), rawMoves_eq_queen hp rfl, bnot_true_iff]

theorem mem_pawn_plain {b : Board} {r c : Int} {p : Piece} {m : Move}
    (hp : b.get? r c = some p) (hm : m ∈ getPawnMoves b r c) : m.isCastling = false := by
  rcases (mem_getPawnMoves hp rfl rfl).mp hm with ⟨-, -, hm2⟩ | ⟨off, -, hmeq, -⟩
  · rcases hm2 with hmeq | ⟨-, -, hmeq⟩ <;> subst hmeq <;> rfl
  · subst hmeq; rfl

theorem mem_knight_plain {b : Board} {r c : Int} {p : Piece} {m : Move}
    (hp : b.get? r c = some p) (hm : m ∈ getKnightMoves b r c) : m.isCastling = false := by
  obtain ⟨d, -, hmeq, -⟩ := (mem_getKnightMoves hp).mp hm
  subst hmeq; rfl

theorem mem_bking_plain {b : Board} {r c : Int} {p : Piece} {m : Move}
    (hp : b.get? r c = some p) (hm : m ∈ getBasicKingMoves b r c) : m.isCastling = false := by
  obtain ⟨d, -, hmeq, -⟩ := (mem_getBasicKingMoves hp).mp hm
  subst hmeq; rfl

theorem mem_linear_plain {b : Board} {r c : Int} {p : Piece} {dirs : List (Int × Int)} {m : Move}
    (hp : b.get? r c = some p) (hm : m ∈ getLinearMoves b r c dirs) : m.isCastling = false := by
  obtain ⟨d, -, hray⟩ := (mem_getLinearMoves hp).mp hm
  obtain ⟨j, -, hmeq, -⟩ := (mem_rayWalk 8 _ _ _).mp hray
  subst hmeq; rfl

theorem rawMoves_plain {b : Board} {r c : Int} {m : Move}
    (hm : m ∈ getValidMovesWithoutCheckValidation b r c) : m.isCastling = false := by
  cases hcell : b.get? r c with
  | none =>
    unfold getValidMovesWithoutCheckValidation at hm
    rw [hcell] at hm
    cases hm
  | some p =>
    cases hk : p.kind
    case pawn => rw [rawMoves_eq_pawn hcell hk] at hm; exact mem_pawn_plain hcell hm
    case rook =>
      rw [rawMoves_eq_rook hcell hk] at hm
      unfold getRookMoves at hm
      exact mem_linear_plain hcell hm
    case knight => rw [rawMoves_eq_knight hcell hk] at hm; exact mem_knight_plain hcell hm
    case bishop =>
      rw [rawMoves_eq_bishop hcell hk] at hm
      unfold getBishopMoves at hm
      exact mem_linear_plain hcell hm
    case queen =>
      rw [rawMoves_eq_queen hcell hk] at hm
      unfold getQueenMoves at hm
      exact mem_linear_plain hcell hm
    case king => rw [rawMoves_eq_king hcell hk] at hm; exact mem_bking_plain hcell hm

/-- A legal move tagged `isCastling` can only come from a king, and then from
the castling generator. -/
theorem castling_from_king {g : GameState} {r c : Int} {p : Piece} {m : Move}
    (hp : g.board.get? r c = some p) (hm : m ∈ getValidMoves g r c)
    (hca : m.isCastling = true) :
    p.kind = Kind.king ∧ m ∈ getCastlingMoves g r c p.isW := by
  obtain ⟨hmem, -⟩ := (mem_getValidMoves_iff hp).mp hm
  by_cases hk : p.kind = Kind.king
  · rw [if_pos hk] at hmem
    refine ⟨hk, ?_⟩
    unfold getKingMoves at hmem
    rw [hp] at hmem
    dsimp only at hmem
    rcases List.mem_append.mp hmem with hb | hc2
    · exfalso
      rw [mem_bking_plain hp hb] at hca
      cases hca
    · exact hc2
  · exfalso
    rw [if_neg hk] at hmem
    rw [rawMoves_plain hmem] at hca
    cases hca

theorem movePiece_board_plain {g : GameState} {fr fc tr tc : Int} {m : Move} {p : Piece}
    (hp : g.board.get? fr fc = some p) (hca : m.isCastling = false) :
    (movePiece g fr fc tr tc m).board =
      (if p.kind = Kind.pawn && ((p.isW && decide (tr = 0)) || (!p.isW && decide (tr = 7))) then
        ((g.board.set tr tc (some p)).set fr fc none).set tr tc (some ⟨Kind.queen, p.isW⟩)
      else (g.board.set tr tc (some p)).set fr fc none) := by
  unfold movePiece
  rw [hp]
  dsimp only
  rw [if_neg (by rw [hca]; exact Bool.false_ne_true)]
  cases hcap : g.board.get? tr tc with
  | none => rfl
  | some cp =>
    obtain ⟨ck, cw⟩ := cp
    cases cw <;> rfl

theorem movePiece_board_castling {g : GameState} {fr fc tr tc : Int} {m : Move} {p : Piece}
    (hp : g.board.get? fr fc = some p) (hca : m.isCastling = true) :
    (movePiece g fr fc tr tc m).board =
      (((g.board.set tr tc (some p)).set fr fc none).set tr (if tc = 6 then 5 else 3)
        (((g.board.set tr tc (some p)).set fr fc none).get? tr m.rookCol)).set tr m.rookCol
        none := by
  unfold movePiece
  rw [hp]
  dsimp only
  rw [if_pos hca]

/-! ### No legal move leaves the mover's own king attacked -/

/-- Core soundness of the legality filter: committing any move returned by
`getValidMoves` (promotion and castling rook relocation included) leaves the
mover's king out of check. -/
theorem no_self_check {g : GameState} {r c : Int} {p : Piece} {m : Move}
    (hp : g.board.get? r c = some p) (hm : m ∈ getValidMoves g r c) :
    isKingInCheck (movePiece g r c m.row m.col m).board p.isW = false := by
  obtain ⟨hmem, hflt⟩ := (mem_getValidMoves_iff hp).mp hm
  have hsim : isKingInCheck ((g.board.set m.row m.col (some p)).set r c none) p.isW
      = false := by
    unfold wouldBeInCheck at hflt
    rw [hp] at hflt
    exact hflt
  cases hca : m.isCastling with
  | false =>
    rw [movePiece_board_plain hp hca]
    by_cases hpromo : (p.kind = Kind.pawn
        && ((p.isW && decide (m.row = 0)) || (!p.isW && decide (m.row = 7)))) = true
    · obtain ⟨hkpd, hfar⟩ := band_elim hpromo
      have hkp : p.kind = Kind.pawn := of_decide_eq_true hkpd
      have hfar' : m.row = 0 ∨ m.row = 7 := by
        rcases bor_elim hfar with h | h
        · exact Or.inl (of_decide_eq_true (band_elim h).2)
        · exact Or.inr (of_decide_eq_true (band_elim h).2)
      have hbndrc := isInBounds_iff.mp (isInBounds_of_get?_eq_some hp)
      have hkmem : m ∈ getPawnMoves g.board r c := by
        rw [if_neg (by rw [hkp]; decide)] at hmem
        rw [rawMoves_eq_pawn hp hkp] at hmem
        exact hmem
      have key : isInBounds m.row m.col = true ∧ ¬(m.row = r ∧ m.col = c) := by
        rcases (mem_getPawnMoves hp rfl rfl).mp hkmem with
          ⟨hin1, -, hm2⟩ | ⟨off, -, hmeq, hin, -, -⟩
        · rcases hm2 with hmeq | ⟨-, -, hmeq⟩
          · subst hmeq
            refine ⟨hin1, ?_⟩
            rintro ⟨e, -⟩
            have e' : r + (if p.isW then (-1 : Int) else 1) = r := e
            cases hpw : p.isW <;> rw [hpw] at e' <;> norm_num at e'
          · subst hmeq
            constructor
            · rw [isInBounds_iff]
              have hrow : r + 2 * (if p.isW then (-1 : Int) else 1) = 0 ∨
                  r + 2 * (if p.isW then (-1 : Int) else 1) = 7 := hfar'
              have hrowe : (mv (r + 2 * (if p.isW then (-1 : Int) else 1)) c).row
                  = r + 2 * (if p.isW then (-1 : Int) else 1) := rfl
              have hcole : (mv (r + 2 * (if p.isW then (-1 : Int) else 1)) c).col = c := rfl
              rw [hrowe, hcole]
              omega
            · rintro ⟨e, -⟩
              have e' : r + 2 * (if p.isW then (-1 : Int) else 1) = r := e
              cases hpw : p.isW <;> rw [hpw] at e' <;> norm_num at e'
        · subst hmeq
          refine ⟨hin, ?_⟩
          rintro ⟨e, -⟩
          have e' : r + (if p.isW then (-1 : Int) else 1) = r := e
          cases hpw : p.isW <;> rw [hpw] at e' <;> norm_num at e'
      have hB1dest : ((g.board.set m.row m.col (some p)).set r c none).get? m.row m.col
          = some p := by
        rw [Board.get?_set_ne _ _ key.2, Board.get?_set_self _ _ key.1]
      have hview : checkView p.isW ((g.board.set m.row m.col (some p)).set r c none)
          (((g.board.set m.row m.col (some p)).set r c none).set m.row m.col
            (some ⟨Kind.queen, p.isW⟩)) := by
        intro r' c'
        by_cases hrc : r' = m.row ∧ c' = m.col
        · obtain ⟨rfl, rfl⟩ := hrc
          have h2 : (((g.board.set m.row m.col (some p)).set r c none).set m.row m.col
              (some ⟨Kind.queen, p.isW⟩)).get? m.row m.col
              = some ⟨Kind.queen, p.isW⟩ := Board.get?_set_self _ _ key.1
          rw [hB1dest, h2]
          refine ⟨rfl, ?_, ?_⟩
          · intro q hq hoppq
            exfalso
            have hqp : p = q := Option.some.inj hq
            rw [← hqp] at hoppq
            cases hpw : p.isW <;> rw [hpw] at hoppq <;> simp at hoppq
          · simp [kingTest, hkp]
        · have he : (((g.board.set m.row m.col (some p)).set r c none).set m.row m.col
              (some ⟨Kind.queen, p.isW⟩)).get? r' c'
              = ((g.board.set m.row m.col (some p)).set r c none).get? r' c' :=
            Board.get?_set_ne _ _ hrc
          rw [he]
          exact ⟨rfl, fun q hq _ => hq, rfl⟩
      rw [if_pos hpromo]
      rw [← isKingInCheck_congr hview]
      exact hsim
    · rw [if_neg hpromo]
      exact hsim
  | true =>
    obtain ⟨hkk, hmc⟩ := castling_from_king hp hm hca
    obtain ⟨rp, hrp, hrpk, hrpw⟩ := castling_corner_rook hmc
    have hbase : (if p.isW then (7 : Int) else 0) = 7 ∨ (if p.isW then (7 : Int) else 0) = 0 := by
      cases p.isW <;> simp
    rcases mem_getCastlingMoves hmc with ⟨hchk, hkm, hside⟩
    rcases hside with ⟨hmeq, hflag, h5n, h6n, -, ha5, ha6⟩ |
      ⟨hmeq, hflag, h1n, h2n, h3n, -, ha2, ha3⟩
    · -- kingside: m = ⟨baseRow, 6, true, 7⟩, rook from column 7 to column 5
      subst hmeq
      have hsim' : isKingInCheck
          ((g.board.set (if p.isW then (7 : Int) else 0) 6 (some p)).set r c none) p.isW
          = false := hsim
      have hne1 : ¬((if p.isW then (7 : Int) else 0) = r ∧ (7 : Int) = c) := by
        rintro ⟨e1, e2⟩
        rw [← e1, ← e2] at hp
        rw [hp] at hrp
        have hpr : p = rp := Option.some.inj hrp
        rw [← hpr] at hrpk
        rw [hkk] at hrpk
        cases hrpk
      have h67 : ¬((if p.isW then (7 : Int) else 0) = (if p.isW then (7 : Int) else 0) ∧
          (7 : Int) = 6) := by
        rintro ⟨-, e⟩
        norm_num at e
      have hB1corner : ((g.board.set (if p.isW then (7 : Int) else 0) 6 (some p)).set r c
          none).get? (if p.isW then (7 : Int) else 0) 7 = some rp := by
        rw [Board.get?_set_ne _ _ hne1, Board.get?_set_ne _ _ h67]
        exact hrp
      have hB1new : ((g.board.set (if p.isW then (7 : Int) else 0) 6 (some p)).set r c
          none).get? (if p.isW then (7 : Int) else 0) 5 = none := by
        by_cases hrc5 : (if p.isW then (7 : Int) else 0) = r ∧ (5 : Int) = c
        · obtain ⟨e1, e2⟩ := hrc5
          rw [e1, e2]
          exact Board.get?_set_self _ _ (isInBounds_of_get?_eq_some hp)
        · rw [Board.get?_set_ne _ _ hrc5,
            Board.get?_set_ne _ _ (by rintro ⟨-, e⟩; norm_num at e :
              ¬((if p.isW then (7 : Int) else 0) = (if p.isW then (7 : Int) else 0) ∧
                (5 : Int) = 6))]
          exact h5n
      rw [movePiece_board_castling hp hca]
      dsimp only
      rw [if_pos (rfl : (6 : Int) = 6)]
      rw [hB1corner]
      exact check_transfer hbase (Or.inr rfl) (Or.inr rfl) hB1corner hrpk hrpw hB1new hsim'
    · -- queenside: m = ⟨baseRow, 2, true, 0⟩, rook from column 0 to column 3
      subst hmeq
      have hsim' : isKingInCheck
          ((g.board.set (if p.isW then (7 : Int) else 0) 2 (some p)).set r c none) p.isW
          = false := hsim
      have hne1 : ¬((if p.isW then (7 : Int) else 0) = r ∧ (0 : Int) = c) := by
        rintro ⟨e1, e2⟩
        rw [← e1, ← e2] at hp
        rw [hp] at hrp
        have hpr : p = rp := Option.some.inj hrp
        rw [← hpr] at hrpk
        rw [hkk] at hrpk
        cases hrpk
      have h02 : ¬((if p.isW then (7 : Int) else 0) = (if p.isW then (7 : Int) else 0) ∧
          (0 : Int) = 2) := by
        rintro ⟨-, e⟩
        norm_num at e
      have hB1corner : ((g.board.set (if p.isW then (7 : Int) else 0) 2 (some p)).set r c
          none).get? (if p.isW then (7 : Int) else 0) 0 = some rp := by
        rw [Board.get?_set_ne _ _ hne1, Board.get?_set_ne _ _ h02]
        exact hrp
      have hB1new : ((g.board.set (if p.isW then (7 : Int) else 0) 2 (some p)).set r c
          none).get? (if p.isW then (7 : Int) else 0) 3 = none := by
        by_cases hrc3 : (if p.isW then (7 : Int) else 0) = r ∧ (3 : Int) = c
        · obtain ⟨e1, e2⟩ := hrc3
          rw [e1, e2]
          exact Board.get?_set_self _ _ (isInBounds_of_get?_eq_some hp)
        · rw [Board.get?_set_ne _ _ hrc3,
            Board.get?_set_ne _ _ (by rintro ⟨-, e⟩; norm_num at e :
              ¬((if p.isW then (7 : Int) else 0) = (if p.isW then (7 : Int) else 0) ∧
                (3 : Int) = 2))]
          exact h3n
      rw [movePiece_board_castling hp hca]
      dsimp only
      rw [if_neg (by norm_num : ¬((2 : Int) = 6))]
      rw [hB1corner]
      exact check_transfer hbase (Or.inl rfl) (Or.inl rfl) hB1corner hrpk hrpw hB1new hsim'

/-! ### Destinations of generated moves: in bounds, never a friendly piece -/

theorem rawMoves_inBounds {b : Board} {r c : Int} {p : Piece} {m : Move}
    (hp : b.get? r c = some p) (hm : m ∈ getValidMovesWithoutCheckValidation b r c) :
    isInBounds m.row m.col = true := by
  have hrc := isInBounds_iff.mp (isInBounds_of_get?_eq_some hp)
  cases hk : p.kind
  case pawn =>
    rw [rawMoves_eq_pawn hp hk] at hm
    rcases (mem_getPawnMoves hp rfl rfl).mp hm with
      ⟨hin1, -, hm2⟩ | ⟨off, -, hmeq, hin, -, -⟩
    · rcases hm2 with hmeq | ⟨hsr, -, hmeq⟩
      · subst hmeq; exact hin1
      · subst hmeq
        have hsr' : r = (if p.isW then (6 : Int) else 1) := hsr
        rw [isInBounds_iff]
        cases hpw : p.isW <;> simp [mv, hpw] at hsr' ⊢ <;> omega
    · subst hmeq; exact hin
  case knight =>
    rw [rawMoves_eq_knight hp hk] at hm
    obtain ⟨d, -, hmeq, hib, -⟩ := (mem_getKnightMoves hp).mp hm
    subst hmeq; exact hib
  case king =>
    rw [rawMoves_eq_king hp hk] at hm
    obtain ⟨d, -, hmeq, hib, -⟩ := (mem_getBasicKingMoves hp).mp hm
    subst hmeq; exact hib
  case rook =>
    rw [rawMoves_eq_rook hp hk] at hm
    unfold getRookMoves at hm
    obtain ⟨d, -, hray⟩ := (mem_getLinearMoves hp).mp hm
    obtain ⟨j, -, hmeq, hib, -, -⟩ := (mem_rayWalk 8 _ _ _).mp hray
    subst hmeq
    exact hib j (Nat.le_refl j)
  case bishop =>
    rw [rawMoves_eq_bishop hp hk] at hm
    unfold getBishopMoves at hm
    obtain ⟨d, -, hray⟩ := (mem_getLinearMoves hp).mp hm
    obtain ⟨j, -, hmeq, hib, -, -⟩ := (mem_rayWalk 8 _ _ _).mp hray
    subst hmeq
    exact hib j (Nat.le_refl j)
  case queen =>
    rw [rawMoves_eq_queen hp hk] at hm
    unfold getQueenMoves at hm
    obtain ⟨d, -, hray⟩ := (mem_getLinearMoves hp).mp hm
    obtain ⟨j, -, hmeq, hib, -, -⟩ := (mem_rayWalk 8 _ _ _).mp hray
    subst hmeq
    exact hib j (Nat.le_refl j)

theorem rawMoves_dest {b : Board} {r c : Int} {p : Piece} {m : Move}
    (hp : b.get? r c = some p) (hm : m ∈ getValidMovesWithoutCheckValidation b r c) :
    b.get? m.row m.col = none ∨ isOpponentPiece b m.row m.col p.isW = true := by
  cases hk : p.kind
  case pawn =>
    rw [rawMoves_eq_pawn hp hk] at hm
    rcases (mem_getPawnMoves hp rfl rfl).mp hm with
      ⟨hin1, hnone1, hm2⟩ | ⟨off, -, hmeq, -, -, hoppc⟩
    · rcases hm2 with hmeq | ⟨-, hnone2, hmeq⟩
      · subst hmeq; exact Or.inl hnone1
      · subst hmeq; exact Or.inl hnone2
    · subst hmeq; exact Or.inr hoppc
  case knight =>
    rw [rawMoves_eq_knight hp hk] at hm
    obtain ⟨d, -, hmeq, -, hdisj⟩ := (mem_getKnightMoves hp).mp hm
    subst hmeq; exact hdisj
  case king =>
    rw [rawMoves_eq_king hp hk] at hm
    obtain ⟨d, -, hmeq, -, hdisj⟩ := (mem_getBasicKingMoves hp).mp hm
    subst hmeq; exact hdisj
  case rook =>
    rw [rawMoves_eq_rook hp hk] at hm
    unfold getRookMoves at hm
    obtain ⟨d, -, hray⟩ := (mem_getLinearMoves hp).mp hm
    obtain ⟨j, -, hmeq, -, -, hlast⟩ := (mem_rayWalk 8 _ _ _).mp hray
    subst hmeq; exact hlast
  case bishop =>
    rw [rawMoves_eq_bishop hp hk] at hm
    unfold getBishopMoves at hm
    obtain ⟨d, -, hray⟩ := (mem_getLinearMoves hp).mp hm
    obtain ⟨j, -, hmeq, -, -, hlast⟩ := (mem_rayWalk 8 _ _ _).mp hray
    subst hmeq; exact hlast
  case queen =>
    rw [rawMoves_eq_queen hp hk] at hm
    unfold getQueenMoves at hm
    obtain ⟨d, -, hray⟩ := (mem_getLinearMoves hp).mp hm
    obtain ⟨j, -, hmeq, -, -, hlast⟩ := (mem_rayWalk 8 _ _ _).mp hray
    subst hmeq; exact hlast

theorem legal_inBounds {g : GameState} {r c : Int} {p : Piece} {m : Move}
    (hp : g.board.get? r c = some p) (hm : m ∈ getValidMoves g r c) :
    isInBounds m.row m.col = true := by
  obtain ⟨hmem, -⟩ := (mem_getValidMoves_iff hp).mp hm
  by_cases hk : p.kind = Kind.king
  · rw [if_pos hk] at hmem
    unfold getKingMoves at hmem
    rw [hp] at hmem
    dsimp only at hmem
    rcases List.mem_append.mp hmem with hb | hc2
    · obtain ⟨d, -, hmeq, hib, -⟩ := (mem_getBasicKingMoves hp).mp hb
      subst hmeq; exact hib
    · rcases mem_getCastlingMoves hc2 with ⟨-, -, hside⟩
      rcases hside with ⟨hmeq, -⟩ | ⟨hmeq, -⟩ <;> subst hmeq <;>
        cases p.isW <;> decide
  · rw [if_neg hk] at hmem
    exact rawMoves_inBounds hp hmem

theorem legal_dest {g : GameState} {r c : Int} {p : Piece} {m : Move}
    (hp : g.board.get? r c = some p) (hm : m ∈ getValidMoves g r c) :
    g.board.get? m.row m.col = none ∨ isOpponentPiece g.board m.row m.col p.isW = true := by
  obtain ⟨hmem, -⟩ := (mem_getValidMoves_iff hp).mp hm
  by_cases hk : p.kind = Kind.king
  · rw [if_pos hk] at hmem
    unfold getKingMoves at hmem
    rw [hp] at hmem
    dsimp only at hmem
    rcases List.mem_append.mp hmem with hb | hc2
    · obtain ⟨d, -, hmeq, -, hdisj⟩ := (mem_getBasicKingMoves hp).mp hb
      subst hmeq; exact hdisj
    · rcases mem_getCastlingMoves hc2 with ⟨-, -, hside⟩
      rcases hside with ⟨hmeq, -, -, h6n, -, -, -⟩ | ⟨hmeq, -, -, h2n, -, -, -, -⟩ <;>
        subst hmeq
      · exact Or.inl h6n
      · exact Or.inl h2n
  · rw [if_neg hk] at hmem
    exact rawMoves_dest hp hmem

theorem legal_dest_ne_origin {g : GameState} {r c : Int} {p : Piece} {m : Move}
    (hp : g.board.get? r c = some p) (hm : m ∈ getValidMoves g r c) :
    ¬(m.row = r ∧ m.col = c) := by
  rintro ⟨e1, e2⟩
  rcases legal_dest hp hm with hd | hd
  · rw [e1, e2, hp] at hd
    cases hd
  · rw [e1, e2] at hd
    unfold isOpponentPiece at hd
    rw [hp] at hd
    cases hpw : p.isW <;> rw [hpw] at hd <;> simp_all

theorem owned_piece {g : GameState} {r c : Int}
    (hown : isPieceOwnedByCurrentPlayer g r c = true) :
    ∃ p : Piece, g.board.get? r c = some p ∧ p.isW = g.currentTurn := by
  unfold isPieceOwnedByCurrentPlayer at hown
  cases hc : g.board.get? r c with
  | none => rw [hc] at hown; cases hown
  | some p =>
    rw [hc] at hown
    dsimp only at hown
    refine ⟨p, rfl, ?_⟩
    cases ht : g.currentTurn <;> cases hpw : p.isW <;> simp_all

/-! ### King counting -/

theorem kingTest_none (w : Bool) : kingTest w none = false := rfl

theorem kingTest_not_king {w : Bool} {q : Piece} (h : q.kind ≠ Kind.king) :
    kingTest w (some q) = false := by
  show (decide (q.kind = Kind.king) && (if w then q.isW else !q.isW)) = false
  rw [decide_eq_false h]
  exact Bool.false_and _

theorem kingCount_set {b : Board} {r c : Int} {v : Option Piece} (w : Bool)
    (hin : isInBounds r c = true) :
    kingCount (b.set r c v) w + (if kingTest w (b.get? r c) = true then 1 else 0)
      = kingCount b w + (if kingTest w v = true then 1 else 0) := by
  unfold kingCount
  have hx : ((r, c) : Int × Int) ∈ squaresList := mem_squaresList.mpr hin
  have hagree : ∀ y ∈ squaresList, y ≠ ((r, c) : Int × Int) →
      (fun sq : Int × Int => kingTest w ((b.set r c v).get? sq.1 sq.2)) y
        = (fun sq : Int × Int => kingTest w (b.get? sq.1 sq.2)) y := by
    intro y hy hne
    dsimp only
    rw [Board.get?_set_ne]
    intro hc2
    exact hne (Prod.ext_iff.mpr ⟨hc2.1, hc2.2⟩)
  have h := countP_change squaresList_nodup hx hagree
  dsimp only at h
  rw [Board.get?_set_self _ _ hin] at h
  exact h

theorem kingCount_board_plain {g : GameState} {r c : Int} {p : Piece} {m : Move} (w : Bool)
    (hp : g.board.get? r c = some p) (hca : m.isCastling = false)
    (hbnd : isInBounds m.row m.col = true)
    (hne : ¬(m.row = r ∧ m.col = c))
    (hdest : kingTest w (g.board.get? m.row m.col) = false) :
    kingCount (movePiece g r c m.row m.col m).board w = kingCount g.board w := by
  have hrcB : isInBounds r c = true := isInBounds_of_get?_eq_some hp
  have hne' : ¬(r = m.row ∧ c = m.col) := fun h => hne ⟨h.1.symm, h.2.symm⟩
  have e1 := @kingCount_set g.board m.row m.col (some p) w hbnd
  rw [hdest] at e1
  have hAget : (g.board.set m.row m.col (some p)).get? r c = some p := by
    rw [Board.get?_set_ne _ _ hne']
    exact hp
  have e2 := @kingCount_set (g.board.set m.row m.col (some p)) r c none w hrcB
  rw [hAget, kingTest_none] at e2
  rw [movePiece_board_plain hp hca]
  by_cases hpromo : (p.kind = Kind.pawn
      && ((p.isW && decide (m.row = 0)) || (!p.isW && decide (m.row = 7)))) = true
  · rw [if_pos hpromo]
    have hkp : p.kind = Kind.pawn := of_decide_eq_true (band_elim hpromo).1
    have hBget : ((g.board.set m.row m.col (some p)).set r c none).get? m.row m.col
        = some p := by
      rw [Board.get?_set_ne _ _ hne, Board.get?_set_self _ _ hbnd]
    have e3 := @kingCount_set ((g.board.set m.row m.col (some p)).set r c none)
      m.row m.col (some ⟨Kind.queen, p.isW⟩) w hbnd
    rw [hBget] at e3
    have hq : kingTest w (some (⟨Kind.queen, p.isW⟩ : Piece)) = false :=
      kingTest_not_king (fun h => by cases h)
    have hpawn : kingTest w (some p) = false := kingTest_not_king (by rw [hkp]; decide)
    rw [hq, hpawn] at e3
    rw [hpawn] at e1 e2
    omega
  · rw [if_neg hpromo]
    omega

theorem kingCount_board_castling {g : GameState} {r c : Int} {p : Piece} {m : Move} (w : Bool)
    (hp : g.board.get? r c = some p) (hm : m ∈ getValidMoves g r c)
    (hca : m.isCastling = true) :
    kingCount (movePiece g r c m.row m.col m).board w = kingCount g.board w := by
  obtain ⟨hkk, hmc⟩ := castling_from_king hp hm hca
  obtain ⟨rp, hrp, hrpk, hrpw⟩ := castling_corner_rook hmc
  have hrcB : isInBounds r c = true := isInBounds_of_get?_eq_some hp
  have hrpnk : kingTest w (some rp) = false := kingTest_not_king (by rw [hrpk]; decide)
  rcases mem_getCastlingMoves hmc with ⟨-, -, hside⟩
  rcases hside with ⟨hmeq, -, h5n, h6n, -, -, -⟩ | ⟨hmeq, -, h1n, h2n, h3n, -, -, -⟩
  · subst hmeq
    rw [movePiece_board_castling hp hca]
    dsimp only
    rw [if_pos (rfl : (6 : Int) = 6)]
    have hb6 : isInBounds (if p.isW then (7 : Int) else 0) 6 = true := by
      cases p.isW <;> decide
    have hb5 : isInBounds (if p.isW then (7 : Int) else 0) 5 = true := by
      cases p.isW <;> decide
    have hb7 : isInBounds (if p.isW then (7 : Int) else 0) 7 = true := by
      cases p.isW <;> decide
    have hned : ¬((if p.isW then (7 : Int) else 0) = r ∧ (6 : Int) = c) := by
      rintro ⟨e1, e2⟩
      rw [← e1, ← e2] at hp
      rw [hp] at h6n
      cases h6n
    have hne1 : ¬((if p.isW then (7 : Int) else 0) = r ∧ (7 : Int) = c) := by
      rintro ⟨e1, e2⟩
      rw [← e1, ← e2] at hp
      rw [hp] at hrp
      have hpr : p = rp := Option.some.inj hrp
      rw [← hpr] at hrpk
      rw [hkk] at hrpk
      cases hrpk
    have hB1corner : ((g.board.set (if p.isW then (7 : Int) else 0) 6 (some p)).set r c
        none).get? (if p.isW then (7 : Int) else 0) 7 = some rp := by
      rw [Board.get?_set_ne _ _ hne1,
        Board.get?_set_ne _ _ (by rintro ⟨-, e⟩; norm_num at e :
          ¬((if p.isW then (7 : Int) else 0) = (if p.isW then (7 : Int) else 0) ∧
            (7 : Int) = 6))]
      exact hrp
    have hB1new : ((g.board.set (if p.isW then (7 : Int) else 0) 6 (some p)).set r c
        none).get? (if p.isW then (7 : Int) else 0) 5 = none := by
      by_cases hrc5 : (if p.isW then (7 : Int) else 0) = r ∧ (5 : Int) = c
      · obtain ⟨e1, e2⟩ := hrc5
        rw [e1, e2]
        exact Board.get?_set_self _ _ hrcB
      · rw [Board.get?_set_ne _ _ hrc5,
          Board.get?_set_ne _ _ (by rintro ⟨-, e⟩; norm_num at e :
            ¬((if p.isW then (7 : Int) else 0) = (if p.isW then (7 : Int) else 0) ∧
              (5 : Int) = 6))]
        exact h5n
    rw [hB1corner]
    have e1 := @kingCount_set g.board (if p.isW then (7 : Int) else 0) 6 (some p) w hb6
    rw [h6n, kingTest_none] at e1
    have hAgetrc : (g.board.set (if p.isW then (7 : Int) else 0) 6 (some p)).get? r c
        = some p := by
      rw [Board.get?_set_ne _ _ (fun h => hned ⟨h.1.symm, h.2.symm⟩)]
      exact hp
    have e2 := @kingCount_set (g.board.set (if p.isW then (7 : Int) else 0) 6 (some p))
      r c none w hrcB
    rw [hAgetrc, kingTest_none] at e2
    have e3 := @kingCount_set
      ((g.board.set (if p.isW then (7 : Int) else 0) 6 (some p)).set r c none)
      (if p.isW then (7 : Int) else 0) 5 (some rp) w hb5
    rw [hB1new, kingTest_none, hrpnk] at e3
    have hCget7 : ((((g.board.set (if p.isW then (7 : Int) else 0) 6 (some p)).set r c
        none).set (if p.isW then (7 : Int) else 0) 5 (some rp))).get?
        (if p.isW then (7 : Int) else 0) 7 = some rp := by
      rw [Board.get?_set_ne _ _ (by rintro ⟨-, e⟩; norm_num at e :
        ¬((if p.isW then (7 : Int) else 0) = (if p.isW then (7 : Int) else 0) ∧
          (7 : Int) = 5))]
      exact hB1corner
    have e4 := @kingCount_set
      (((g.board.set (if p.isW then (7 : Int) else 0) 6 (some p)).set r c none).set
        (if p.isW then (7 : Int) else 0) 5 (some rp))
      (if p.isW then (7 : Int) else 0) 7 none w hb7
    rw [hCget7, kingTest_none, hrpnk] at e4
    omega
  · subst hmeq
    rw [movePiece_board_castling hp hca]
    dsimp only
    rw [if_neg (by norm_num : ¬((2 : Int) = 6))]
    have hb2 : isInBounds (if p.isW then (7 : Int) else 0) 2 = true := by
      cases p.isW <;> decide
    have hb3 : isInBounds (if p.isW then (7 : Int) else 0) 3 = true := by
      cases p.isW <;> decide
    have hb0 : isInBounds (if p.isW then (7 : Int) else 0) 0 = true := by
      cases p.isW <;> decide
    have hned : ¬((if p.isW then (7 : Int) else 0) = r ∧ (2 : Int) = c) := by
      rintro ⟨e1, e2⟩
      rw [← e1, ← e2] at hp
      rw [hp] at h2n
      cases h2n
    have hne1 : ¬((if p.isW then (7 : Int) else 0) = r ∧ (0 : Int) = c) := by
      rintro ⟨e1, e2⟩
      rw [← e1, ← e2] at hp
      rw [hp] at hrp
      have hpr : p = rp := Option.some.inj hrp
      rw [← hpr] at hrpk
      rw [hkk] at hrpk
      cases hrpk
    have hB1corner : ((g.board.set (if p.isW then (7 : Int) else 0) 2 (some p)).set r c
        none).get? (if p.isW then (7 : Int) else 0) 0 = some rp := by
      rw [Board.get?_set_ne _ _ hne1,
        Board.get?_set_ne _ _ (by rintro ⟨-, e⟩; norm_num at e :
          ¬((if p.isW then (7 : Int) else 0) = (if p.isW then (7 : Int) else 0) ∧
            (0 : Int) = 2))]
      exact hrp
    have hB1new : ((g.board.set (if p.isW then (7 : Int) else 0) 2 (some p)).set r c
        none).get? (if p.isW then (7 : Int) else 0) 3 = none := by
      by_cases hrc3 : (if p.isW then (7 : Int) else 0) = r ∧ (3 : Int) = c
      · obtain ⟨e1, e2⟩ := hrc3
        rw [e1, e2]
        exact Board.get?_set_self _ _ hrcB
      · rw [Board.get?_set_ne _ _ hrc3,
          Board.get?_set_ne _ _ (by rintro ⟨-, e⟩; norm_num at e :
            ¬((if p.isW then (7 : Int) else 0) = (if p.isW then (7 : Int) else 0) ∧
              (3 : Int) = 2))]
        exact h3n
    rw [hB1corner]
    have e1 := @kingCount_set g.board (if p.isW then (7 : Int) else 0) 2 (some p) w hb2
    rw [h2n, kingTest_none] at e1
    have hAgetrc : (g.board.set (if p.isW then (7 : Int) else 0) 2 (some p)).get? r c
        = some p := by
      rw [Board.get?_set_ne _ _ (fun h => hned ⟨h.1.symm, h.2.symm⟩)]
      exact hp
    have e2 := @kingCount_set (g.board.set (if p.isW then (7 : Int) else 0) 2 (some p))
      r c none w hrcB
    rw [hAgetrc, kingTest_none] at e2
    have e3 := @kingCount_set
      ((g.board.set (if p.isW then (7 : Int) else 0) 2 (some p)).set r c none)
      (if p.isW then (7 : Int) else 0) 3 (some rp) w hb3
    rw [hB1new, kingTest_none, hrpnk] at e3
    have hCget0 : ((((g.board.set (if p.isW then (7 : Int) else 0) 2 (some p)).set r c
        none).set (if p.isW then (7 : Int) else 0) 3 (some rp))).get?
        (if p.isW then (7 : Int) else 0) 0 = some rp := by
      rw [Board.get?_set_ne _ _ (by rintro ⟨-, e⟩; norm_num at e :
        ¬((if p.isW then (7 : Int) else 0) = (if p.isW then (7 : Int) else 0) ∧
          (0 : Int) = 3))]
      exact hB1corner
    have e4 := @kingCount_set
      (((g.board.set (if p.isW then (7 : Int) else 0) 2 (some p)).set r c none).set
        (if p.isW then (7 : Int) else 0) 3 (some rp))
      (if p.isW then (7 : Int) else 0) 0 none w hb0
    rw [hCget0, kingTest_none, hrpnk] at e4
    omega

theorem switchTurn_board (g : GameState) : (switchTurn g).board = g.board := rfl

theorem switchTurn_turn (g : GameState) : (switchTurn g).currentTurn = !g.currentTurn := rfl

theorem movePiece_currentTurn {g : GameState} {fr fc tr tc : Int} {m : Move} :
    (movePiece g fr fc tr tc m).currentTurn = g.currentTurn := by
  unfold movePiece
  cases hp : g.board.get? fr fc with
  | none => rfl
  | some p =>
    dsimp only
    by_cases hca : m.isCastling = true
    · rw [if_pos hca]
    · rw [if_neg hca]
      cases hcap : g.board.get? tr tc with
      | none => rfl
      | some cp =>
        obtain ⟨ck, cw⟩ := cp
        cases cw <;> rfl

/-- The inductive invariant behind the one-king-per-color property: both kings
are present exactly once, and the side that is *not* to move is not in check
(it just moved through the legality filter). -/
def Inv (g : GameState) : Prop :=
  kingCount g.board true = 1 ∧ kingCount g.board false = 1 ∧
  isKingInCheck g.board (!g.currentTurn) = false

theorem inv_initial : Inv initialState :=
  ⟨by decide, by decide, by decide⟩

theorem inv_step {g : GameState} {r c : Int} {m : Move}
    (hInv : Inv g) (hown : isPieceOwnedByCurrentPlayer g r c = true)
    (hm : m ∈ getValidMoves g r c) :
    Inv (switchTurn (movePiece g r c m.row m.col m)) := by
  obtain ⟨p, hp, hpw⟩ := owned_piece hown
  obtain ⟨hc1, hc2, hchk⟩ := hInv
  have hdest : ∀ w : Bool, kingTest w (g.board.get? m.row m.col) = false := by
    intro w
    cases hdc : g.board.get? m.row m.col with
    | none => exact kingTest_none w
    | some q =>
      refine kingTest_not_king ?_
      intro hqk
      have hqopp : isOpponentPiece g.board m.row m.col p.isW = true := by
        rcases legal_dest hp hm with hd | hd
        · rw [hdc] at hd; cases hd
        · exact hd
      have hqw : q.isW = !p.isW := by
        unfold isOpponentPiece at hqopp
        rw [hdc] at hqopp
        dsimp only at hqopp
        cases hw : p.isW <;> cases hw2 : q.isW <;> simp_all
      have hcount1 : kingCount g.board (!g.currentTurn) = 1 := by
        cases ht : g.currentTurn
        · exact hc1
        · exact hc2
      have hqwturn : (if (!g.currentTurn) then q.isW else !q.isW) = true := by
        rw [hqw, hpw]
        cases g.currentTurn <;> simp
      have hfk : findKing g.board (!g.currentTurn) = some (m.row, m.col) :=
        findKing_unique hcount1 hdc hqk hqwturn
      have hmraw : m ∈ getValidMovesWithoutCheckValidation g.board r c := by
        obtain ⟨hmem, -⟩ := (mem_getValidMoves_iff hp).mp hm
        by_cases hk : p.kind = Kind.king
        · rw [if_pos hk] at hmem
          unfold getKingMoves at hmem
          rw [hp] at hmem
          dsimp only at hmem
          rcases List.mem_append.mp hmem with hb | hcs
          · rw [rawMoves_eq_king hp hk]
            exact hb
          · exfalso
            rcases mem_getCastlingMoves hcs with ⟨-, -, hside⟩
            rcases hside with ⟨hmeq, -, -, h6n, -, -, -⟩ | ⟨hmeq, -, -, h2n, -, -, -, -⟩ <;>
              subst hmeq
            · have hdc' : g.board.get? (if p.isW then (7 : Int) else 0) 6 = some q := hdc
              rw [h6n] at hdc'
              cases hdc'
            · have hdc' : g.board.get? (if p.isW then (7 : Int) else 0) 2 = some q := hdc
              rw [h2n] at hdc'
              cases hdc'
        · rw [if_neg hk] at hmem
          exact hmem
      have hopp2 : (if (!g.currentTurn) then !p.isW else p.isW) = true := by
        rw [hpw]
        cases g.currentTurn <;> simp
      have hchk' : isKingInCheck g.board (!g.currentTurn) = true :=
        isKingInCheck_true_iff.mpr ⟨(m.row, m.col), hfk, (r, c),
          mem_squaresList.mpr (isInBounds_of_get?_eq_some hp), p, hp, hopp2, m, hmraw,
          rfl, rfl⟩
      rw [hchk'] at hchk
      cases hchk
  have hcounts : ∀ w : Bool,
      kingCount (movePiece g r c m.row m.col m).board w = kingCount g.board w := by
    intro w
    cases hca : m.isCastling with
    | true => exact kingCount_board_castling w hp hm hca
    | false =>
      exact kingCount_board_plain w hp hca (legal_inBounds hp hm)
        (legal_dest_ne_origin hp hm) (hdest w)
  refine ⟨?_, ?_, ?_⟩
  · rw [switchTurn_board, hcounts true]
    exact hc1
  · rw [switchTurn_board, hcounts false]
    exact hc2
  · rw [switchTurn_board, switchTurn_turn, movePiece_currentTurn, Bool.not_not, ← hpw]
    exact no_self_check hp hm

/-- Every reachable state keeps the invariant. -/
theorem reachable_inv {g : GameState} (h : Reachable g) : Inv g := by
  induction h with
  | init => exact inv_initial
  | step g r c m hg hown hm ih => exact inv_step ih hown hm

/-! ### Capture lists and movement-history flags under `movePiece` -/

theorem movePiece_captured_castling {g : GameState} {fr fc tr tc : Int} {m : Move} {p : Piece}
    (hp : g.board.get? fr fc = some p) (hca : m.isCastling = true) :
    (movePiece g fr fc tr tc m).capturedWhite = g.capturedWhite ∧
    (movePiece g fr fc tr tc m).capturedBlack = g.capturedBlack := by
  unfold movePiece
  rw [hp]
  dsimp only
  rw [if_pos hca]
  exact ⟨rfl, rfl⟩

theorem movePiece_captured_none {g : GameState} {fr fc tr tc : Int} {m : Move} {p : Piece}
    (hp : g.board.get? fr fc = some p) (hca : m.isCastling = false)
    (hcap : g.board.get? tr tc = none) :
    (movePiece g fr fc tr tc m).capturedWhite = g.capturedWhite ∧
    (movePiece g fr fc tr tc m).capturedBlack = g.capturedBlack := by
  unfold movePiece
  rw [hp]
  dsimp only
  rw [if_neg (by rw [hca]; exact Bool.false_ne_true), hcap]
  exact ⟨rfl, rfl⟩

theorem movePiece_captured_some {g : GameState} {fr fc tr tc : Int} {m : Move} {p q : Piece}
    (hp : g.board.get? fr fc = some p) (hca : m.isCastling = false)
    (hcap : g.board.get? tr tc = some q) :
    (movePiece g fr fc tr tc m).capturedWhite
      = (if q.isW then g.capturedWhite ++ [q] else g.capturedWhite) ∧
    (movePiece g fr fc tr tc m).capturedBlack
      = (if q.isW then g.capturedBlack else g.capturedBlack ++ [q]) := by
  unfold movePiece
  rw [hp]
  dsimp only
  rw [if_neg (by rw [hca]; exact Bool.false_ne_true), hcap]
  obtain ⟨qk, qw⟩ := q
  cases qw <;> exact ⟨rfl, rfl⟩

theorem movePiece_whiteKing_mono {g : GameState} {fr fc tr tc : Int} {m : Move} :
    (movePiece g fr fc tr tc m).hasMoved.whiteKing = g.hasMoved.whiteKing ∨
    (movePiece g fr fc tr tc m).hasMoved.whiteKing = true := by
  unfold movePiece
  cases hp : g.board.get? fr fc with
  | none => exact Or.inl rfl
  | some p =>
    obtain ⟨pk, pw⟩ := p
    dsimp only
    by_cases hca : m.isCastling = true
    · rw [if_pos hca]
      cases pk <;> cases pw <;> first | exact Or.inl rfl | exact Or.inr rfl
    · rw [if_neg hca]
      cases hcap : g.board.get? tr tc with
      | none => cases pk <;> cases pw <;> first | exact Or.inl rfl | exact Or.inr rfl
      | some q =>
        obtain ⟨qk, qw⟩ := q
        cases qw <;> cases pk <;> cases pw <;> first | exact Or.inl rfl | exact Or.inr rfl

theorem movePiece_blackKing_mono {g : GameState} {fr fc tr tc : Int} {m : Move} :
    (movePiece g fr fc tr tc m).hasMoved.blackKing = g.hasMoved.blackKing ∨
    (movePiece g fr fc tr tc m).hasMoved.blackKing = true := by
  unfold movePiece
  cases hp : g.board.get? fr fc with
  | none => exact Or.inl rfl
  | some p =>
    obtain ⟨pk, pw⟩ := p
    dsimp only
    by_cases hca : m.isCastling = true
    · rw [if_pos hca]
      cases pk <;> cases pw <;> first | exact Or.inl rfl | exact Or.inr rfl
    · rw [if_neg hca]
      cases hcap : g.board.get? tr tc with
      | none => cases pk <;> cases pw <;> first | exact Or.inl rfl | exact Or.inr rfl
      | some q =>
        obtain ⟨qk, qw⟩ := q
        cases qw <;> cases pk <;> cases pw <;> first | exact Or.inl rfl | exact Or.inr rfl

theorem kingFlag_mono {g : GameState} {fr fc tr tc : Int} {m : Move} (w : Bool)
    (h : (if w then g.hasMoved.whiteKing else g.hasMoved.blackKing) = true) :
    (if w then (movePiece g fr fc tr tc m).hasMoved.whiteKing
     else (movePiece g fr fc tr tc m).hasMoved.blackKing) = true := by
  cases w
  · show (movePiece g fr fc tr tc m).hasMoved.blackKing = true
    rcases @movePiece_blackKing_mono g fr fc tr tc m with he | ht
    · rw [he]; exact h
    · exact ht
  · show (movePiece g fr fc tr tc m).hasMoved.whiteKing = true
    rcases @movePiece_whiteKing_mono g fr fc tr tc m with he | ht
    · rw [he]; exact h
    · exact ht

theorem movePiece_hasMoved_castling {g : GameState} {fr fc tr tc : Int} {m : Move} {p : Piece}
    (hp : g.board.get? fr fc = some p) (hca : m.isCastling = true)
    (hkk : p.kind = Kind.king) :
    (movePiece g fr fc tr tc m).hasMoved =
      (if p.isW then { g.hasMoved with whiteKing := true }
       else { g.hasMoved with blackKing := true }) := by
  unfold movePiece
  rw [hp]
  dsimp only
  rw [if_pos hca]
  obtain ⟨pk, pw⟩ := p
  have hk : pk = Kind.king := hkk
  subst hk
  cases pw <;> rfl

theorem getCastlingMoves_kingMoved {g : GameState} {row col : Int} {isWhite : Bool}
    (h : (if isWhite then g.hasMoved.whiteKing else g.hasMoved.blackKing) = true) :
    getCastlingMoves g row col isWhite = [] := by
  unfold getCastlingMoves
  by_cases hchk : isKingInCheck g.board isWhite = true
  · rw [if_pos hchk]
  · rw [if_neg hchk]
    dsimp only
    rw [if_pos h]

/-- Fold a list of `(fromRow, fromCol, move)` commands through the program's
commit path: `movePiece` followed by `switchTurn`. -/
def applySeq (g : GameState) : List (Int × Int × Move) → GameState
  | [] => g
  | s :: rest => applySeq (switchTurn (movePiece g s.1 s.2.1 s.2.2.row s.2.2.col s.2.2)) rest

theorem switchTurn_hasMoved (g : GameState) : (switchTurn g).hasMoved = g.hasMoved := rfl

/-- Once a color's king-has-moved flag is set, no later sequence of committed
moves ever produces a castling candidate for that color again. -/
theorem castle_dead {g : GameState} (w : Bool)
    (h : (if w then g.hasMoved.whiteKing else g.hasMoved.blackKing) = true) :
    ∀ (steps : List (Int × Int × Move)) (row col : Int),
      getCastlingMoves (applySeq g steps) row col w = [] := by
  intro steps
  induction steps generalizing g with
  | nil =>
    intro row col
    exact getCastlingMoves_kingMoved h
  | cons s rest ih =>
    intro row col
    apply ih
    show (if w then
        (switchTurn (movePiece g s.1 s.2.1 s.2.2.row s.2.2.col s.2.2)).hasMoved.whiteKing
      else
        (switchTurn (movePiece g s.1 s.2.1 s.2.2.row s.2.2.col s.2.2)).hasMoved.blackKing)
      = true
    rw [switchTurn_hasMoved]
    exact kingFlag_mono w h

/-! ### `hasAnyValidMoves`, unfolded -/

theorem hasAny_false_iff {g : GameState} :
    hasAnyValidMoves g = false ↔
      ∀ r c : Int, isPieceOwnedByCurrentPlayer g r c = true → getValidMoves g r c = [] := by
  unfold hasAnyValidMoves
  constructor
  · intro h r c hown
    by_contra hne
    have hmemsq : ((r, c) : Int × Int) ∈ squaresList := by
      obtain ⟨p, hp, -⟩ := owned_piece hown
      exact mem_squaresList.mpr (isInBounds_of_get?_eq_some hp)
    have hany : (squaresList.any fun sq => isPieceOwnedByCurrentPlayer g sq.1 sq.2 &&
        !(getValidMoves g sq.1 sq.2).isEmpty) = true := by
      refine List.any_eq_true.mpr ⟨(r, c), hmemsq, band_intro hown ?_⟩
      rw [bnot_true_iff]
      cases hl : (getValidMoves g r c).isEmpty
      · rfl
      · exact absurd (List.isEmpty_iff.mp hl) hne
    rw [h] at hany
    cases hany
  · intro h
    cases hany : (squaresList.any fun sq => isPieceOwnedByCurrentPlayer g sq.1 sq.2 &&
        !(getValidMoves g sq.1 sq.2).isEmpty) with
    | false => rfl
    | true =>
      exfalso
      obtain ⟨sq, hsq, hpred⟩ := List.any_eq_true.mp hany
      obtain ⟨h1, h2⟩ := band_elim hpred
      rw [bnot_true_iff] at h2
      rw [h sq.1 sq.2 h1] at h2
      cases h2

/-! ### Status classification -/

/-- The full specification of `checkGameStatus` for one state: each of the four
verdicts holds exactly for the corresponding combination of "the side to move
has zero legal moves over all 64 squares" and "its king is attacked". -/
def StatusSpec (g : GameState) : Prop :=
  (checkGameStatus g = GameStatus.checkmate ↔
    ((∀ r c : Int, isPieceOwnedByCurrentPlayer g r c = true → getValidMoves g r c = []) ∧
      isKingInCheck g.board g.currentTurn = true)) ∧
  (checkGameStatus g = GameStatus.stalemate ↔
    ((∀ r c : Int, isPieceOwnedByCurrentPlayer g r c = true → getValidMoves g r c = []) ∧
      isKingInCheck g.board g.currentTurn = false)) ∧
  (checkGameStatus g = GameStatus.check ↔
    (¬(∀ r c : Int, isPieceOwnedByCurrentPlayer g r c = true → getValidMoves g r c = []) ∧
      isKingInCheck g.board g.currentTurn = true)) ∧
  (checkGameStatus g = GameStatus.ongoing ↔
    (¬(∀ r c : Int, isPieceOwnedByCurrentPlayer g r c = true → getValidMoves g r c = []) ∧
      isKingInCheck g.board g.currentTurn = false))

theorem checkGameStatus_eq (g : GameState) :
    checkGameStatus g =
      (if hasAnyValidMoves g = false then
        (if isKingInCheck g.board g.currentTurn = true then GameStatus.checkmate
         else GameStatus.stalemate)
      else
        (if isKingInCheck g.board g.currentTurn = true then GameStatus.check
         else GameStatus.ongoing)) := by
  unfold checkGameStatus
  cases hasAnyValidMoves g <;> cases isKingInCheck g.board g.currentTurn <;> rfl

theorem statusSpec_all (g : GameState) : StatusSpec g := by
  unfold StatusSpec
  have hiff := @hasAny_false_iff g
  rw [checkGameStatus_eq]
  cases hmv : hasAnyValidMoves g <;> cases hck : isKingInCheck g.board g.currentTurn
  · -- no legal moves, not in check: stalemate
    have hall := hiff.mp hmv
    rw [if_pos rfl, if_neg (fun h => by cases h)]
    exact ⟨⟨(fun h => nomatch h), (fun h => nomatch h.2)⟩,
      ⟨(fun _ => ⟨hall, rfl⟩), (fun _ => rfl)⟩,
      ⟨(fun h => nomatch h), (fun h => nomatch h.2)⟩,
      ⟨(fun h => nomatch h), (fun h => absurd hall h.1)⟩⟩
  · -- no legal moves, in check: checkmate
    have hall := hiff.mp hmv
    rw [if_pos rfl, if_pos rfl]
    exact ⟨⟨(fun _ => ⟨hall, rfl⟩), (fun _ => rfl)⟩,
      ⟨(fun h => nomatch h), (fun h => nomatch h.2)⟩,
      ⟨(fun h => nomatch h), (fun h => absurd hall h.1)⟩,
      ⟨(fun h => nomatch h), (fun h => nomatch h.2)⟩⟩
  · -- some legal move, not in check: ongoing
    rw [if_neg (fun h => by cases h), if_neg (fun h => by cases h)]
    have hnall : ¬(∀ r c : Int, isPieceOwnedByCurrentPlayer g r c = true →
        getValidMoves g r c = []) := fun hall => by
      rw [hiff.mpr hall] at hmv
      cases hmv
    exact ⟨⟨(fun h => nomatch h), (fun h => nomatch h.2)⟩,
      ⟨(fun h => nomatch h), (fun h => absurd h.1 hnall)⟩,
      ⟨(fun h => nomatch h), (fun h => nomatch h.2)⟩,
      ⟨(fun _ => ⟨hnall, rfl⟩), (fun _ => rfl)⟩⟩
  · -- some legal move, in check: check
    rw [if_neg (fun h => by cases h), if_pos rfl]
    have hnall : ¬(∀ r c : Int, isPieceOwnedByCurrentPlayer g r c = true →
        getValidMoves g r c = []) := fun hall => by
      rw [hiff.mpr hall] at hmv
      cases hmv
    exact ⟨⟨(fun h => nomatch h), (fun h => absurd h.1 hnall)⟩,
      ⟨(fun h => nomatch h), (fun h => nomatch h.2)⟩,
      ⟨(fun _ => ⟨hnall, rfl⟩), (fun _ => rfl)⟩,
      ⟨(fun h => nomatch h), (fun h => nomatch h.2)⟩⟩

/-! ### Aggregate counts for the initial position -/

/-- Total number of legal moves over all squares holding white pieces. -/
def whiteMoveTotal (g : GameState) : Nat :=
  (squaresList.map fun sq =>
    match g.board.get? sq.1 sq.2 with
    | some p => if p.isW then (getValidMoves g sq.1 sq.2).length else 0
    | none => 0).sum

/-- Total number of legal moves over all squares holding white pieces of one
kind. -/
def whiteKindTotal (g : GameState) (k : Kind) : Nat :=
  (squaresList.map fun sq =>
    match g.board.get? sq.1 sq.2 with
    | some p => if p.isW && decide (p.kind = k) then (getValidMoves g sq.1 sq.2).length else 0
    | none => 0).sum

/-! ### Concrete positions used as witnesses and counterexamples -/

/-- White Ke1 and Rh1 unmoved with f1 and g1 empty; black Ka8 and a black pawn
on e2.  The pawn diagonally controls the empty transit square f1. -/
def pawnControlBoard : Board := boardOfLists
  [[bK, none, none, none, none, none, none, none],
   [none, none, none, none, none, none, none, none],
   [none, none, none, none, none, none, none, none],
   [none, none, none, none, none, none, none, none],
   [none, none, none, none, none, none, none, none],
   [none, none, none, none, none, none, none, none],
   [none, none, none, none, bP, none, none, none],
   [none, none, none, none, wK, none, none, wR]]

def pawnControlState : GameState :=
  { board := pawnControlBoard
    currentTurn := true
    capturedWhite := []
    capturedBlack := []
    hasMoved := freshFlags }

/-- The initial position with f1 and g1 cleared: white may castle kingside. -/
def castleReadyBoard : Board := boardOfLists
  [[bR, bN, bB, bQ, bK, bB, bN, bR],
   [bP, bP, bP, bP, bP, bP, bP, bP],
   [none, none, none, none, none, none, none, none],
   [none, none, none, none, none, none, none, none],
   [none, none, none, none, none, none, none, none],
   [none, none, none, none, none, none, none, none],
   [wP, wP, wP, wP, wP, wP, wP, wP],
   [wR, wN, wB, wQ, wK, none, none, wR]]

def castleReadyState : GameState :=
  { board := castleReadyBoard
    currentTurn := true
    capturedWhite := []
    capturedBlack := []
    hasMoved := freshFlags }

/-- A white pawn on a7 one step from promotion, plus the two kings. -/
def promoBoard : Board := boardOfLists
  [[none, none, none, none, bK, none, none, none],
   [wP, none, none, none, none, none, none, none],
   [none, none, none, none, none, none, none, none],
   [none, none, none, none, none, none, none, none],
   [none, none, none, none, none, none, none, none],
   [none, none, none, none, none, none, none, none],
   [none, none, none, none, none, none, none, none],
   [none, none, none, none, wK, none, none, none]]

def promoState : GameState :=
  { board := promoBoard
    currentTurn := true
    capturedWhite := []
    capturedBlack := []
    hasMoved := freshFlags }

/-- A white rook able to capture a black knight along the fifth rank. -/
def captureBoard : Board := boardOfLists
  [[none, none, none, none, bK, none, none, none],
   [none, none, none, none, none, none, none, none],
   [none, none, none, none, none, none, none, none],
   [none, none, none, none, none, none, none, none],
   [none, none, none, none, wR, none, none, bN],
   [none, none, none, none, none, none, none, none],
   [none, none, none, none, none, none, none, none],
   [none, none, none, none, wK, none, none, none]]

def captureState : GameState :=
  { board := captureBoard
    currentTurn := true
    capturedWhite := []
    capturedBlack := []
    hasMoved := freshFlags }

/-! ## Claim theorems -/

/-- C1: for every reachable game position and every occupied square, no move
returned by the legal-move query `getValidMoves`, when committed by
`movePiece` (including the rook relocation of a castling move), leaves the
mover's own king attacked: `isKingInCheck` for the mover returns `false`
afterwards.  (The proof factors through `no_self_check`, which establishes the
property for arbitrary states, reachable or not.) -/
theorem claimC1 (g : GameState) (r c : Int) (p : Piece) (m : Move)
    (hre : Reachable g) (hp : g.board.get? r c = some p)
    (hm : m ∈ getValidMoves g r c) :
    isKingInCheck (movePiece g r c m.row m.col m).board p.isW = false :=
  no_self_check hp hm

theorem claimC1_witness :
    Reachable initialState ∧
    initialState.board.get? 6 0 = some ⟨Kind.pawn, true⟩ ∧
    mv 5 0 ∈ getValidMoves initialState 6 0 ∧
    isKingInCheck (movePiece initialState 6 0 (mv 5 0).row (mv 5 0).col (mv 5 0)).board
      (Piece.mk Kind.pawn true).isW = false :=
  ⟨Reachable.init, by decide, by decide,
    claimC1 initialState 6 0 ⟨Kind.pawn, true⟩ (mv 5 0) Reachable.init (by decide) (by decide)⟩

/-- C2: REFUTED (bug in the code).  The claim says an opponent pawn diagonally
controlling an empty transit square prevents the castling candidate.  In
`pawnControlState` the black pawn on (6,4) diagonally controls the empty
transit square (7,5) — witnessed below by the pawn capture generated once that
square is occupied — yet `isSquareUnderAttack` reports (7,5) as not attacked
(pawn captures are only generated onto occupied squares), so the kingside
castling candidate is generated and even survives the final legality filter. -/
theorem claimC2_refuted :
    pawnControlState.board.get? 6 4 = some ⟨Kind.pawn, false⟩ ∧
    pawnControlState.board.get? 7 5 = none ∧
    pawnControlState.board.get? 7 6 = none ∧
    mv 7 5 ∈ getPawnMoves (pawnControlState.board.set 7 5 (some ⟨Kind.rook, true⟩)) 6 4 ∧
    isSquareUnderAttack pawnControlState.board 7 5 true = false ∧
    getCastlingMoves pawnControlState 7 4 true = [⟨7, 6, true, 7⟩] ∧
    (⟨7, 6, true, 7⟩ : Move) ∈ getValidMoves pawnControlState 7 4 :=
  ⟨by decide, by decide, by decide, by decide, by decide, by decide, by decide⟩

/-- C3 (corrected): `getValidMoves` does return the empty list on an
unoccupied square, but it performs no ownership check at all — the ownership
filter lives in `isPieceOwnedByCurrentPlayer`, which the click handler
consults before ever calling `getValidMoves`.  This theorem states the
corrected claim: empty squares yield no moves and fail the ownership test,
and squares holding an opponent piece fail the ownership test. -/
theorem claimC3_corrected (g : GameState) (r c : Int) :
    (g.board.get? r c = none → getValidMoves g r c = []) ∧
    (g.board.get? r c = none → isPieceOwnedByCurrentPlayer g r c = false) ∧
    (∀ p : Piece, g.board.get? r c = some p → p.isW ≠ g.currentTurn →
      isPieceOwnedByCurrentPlayer g r c = false) := by
  refine ⟨fun h => ?_, fun h => ?_, fun p hp hne => ?_⟩
  · unfold getValidMoves
    rw [h]
  · unfold isPieceOwnedByCurrentPlayer
    rw [h]
  · unfold isPieceOwnedByCurrentPlayer
    rw [hp]
    dsimp only
    cases ht : g.currentTurn <;> cases hpw : p.isW <;> simp_all

/-- C3, refutation of the original wording: with White to move in the initial
position, the black pawn on (1,0) is not owned by the side to move, yet
`getValidMoves` returns a non-empty list for its square. -/
theorem claimC3_counterexample :
    initialState.currentTurn = true ∧
    initialState.board.get? 1 0 = some ⟨Kind.pawn, false⟩ ∧
    (Piece.mk Kind.pawn false).isW ≠ initialState.currentTurn ∧
    getValidMoves initialState 1 0 ≠ [] := by
  refine ⟨by decide, by decide, by decide, by decide⟩

theorem claimC3_witness :
    (initialState.board.get? 3 3 = none ∧ getValidMoves initialState 3 3 = []) ∧
    ((Piece.mk Kind.pawn false).isW ≠ initialState.currentTurn ∧
      isPieceOwnedByCurrentPlayer initialState 1 0 = false) :=
  ⟨⟨by decide, (claimC3_corrected initialState 3 3).1 (by decide)⟩,
   ⟨by decide, (claimC3_corrected initialState 1 0).2.2 ⟨Kind.pawn, false⟩ (by decide)
      (by decide)⟩⟩

/-- C4: after every committed move, `checkGameStatus` on the new state
classifies the position as checkmate exactly when the side to move has zero
legal moves over all 64 squares and its king is attacked, as stalemate exactly
when it has zero legal moves and its king is not attacked, as check exactly
when legal moves exist and the king is attacked, and as ongoing otherwise
(see `StatusSpec`). -/
theorem claimC4 (g : GameState) (fr fc tr tc : Int) (m : Move) :
    StatusSpec (switchTurn (movePiece g fr fc tr tc m)) :=
  statusSpec_all _

/-- C5: every state reachable from the initial position by selecting an own
piece and committing a move returned by `getValidMoves` has exactly one white
king and exactly one black king on the board. -/
theorem claimC5 (g : GameState) (hre : Reachable g) :
    kingCount g.board true = 1 ∧ kingCount g.board false = 1 :=
  ⟨(reachable_inv hre).1, (reachable_inv hre).2.1⟩

theorem claimC5_witness :
    Reachable initialState ∧ kingCount initialState.board true = 1 ∧
      kingCount initialState.board false = 1 :=
  ⟨Reachable.init, claimC5 initialState Reachable.init⟩

/-- C6: in the standard initial position with White to move, the legal moves
over all squares holding White pieces number exactly 20: 16 pawn moves and 4
knight moves. -/
theorem claimC6 :
    whiteMoveTotal initialState = 20 ∧
    whiteKindTotal initialState Kind.pawn = 16 ∧
    whiteKindTotal initialState Kind.knight = 4 :=
  ⟨by decide, by decide, by decide⟩

/-- C7: committing a legal pawn move whose destination row is the farthest
rank for the pawn's color (0 for white, 7 for black) leaves a queen of the
moving pawn's color on the destination square; in particular reading the
destination square after such a move never yields a pawn. -/
theorem claimC7 (g : GameState) (r c : Int) (col : Bool) (m : Move)
    (hp : g.board.get? r c = some ⟨Kind.pawn, col⟩)
    (hm : m ∈ getValidMoves g r c)
    (hfar : m.row = (if col then 0 else 7)) :
    (movePiece g r c m.row m.col m).board.get? m.row m.col = some ⟨Kind.queen, col⟩ ∧
    ∀ q : Piece, q.kind = Kind.pawn →
      (movePiece g r c m.row m.col m).board.get? m.row m.col ≠ some q := by
  have hnk : ¬((Piece.mk Kind.pawn col).kind = Kind.king) := fun h => nomatch h
  have hca : m.isCastling = false := by
    obtain ⟨hmem, -⟩ := (mem_getValidMoves_iff hp).mp hm
    rw [if_neg hnk] at hmem
    rw [rawMoves_eq_pawn hp rfl] at hmem
    exact mem_pawn_plain hp hmem
  have hbnd : isInBounds m.row m.col = true := legal_inBounds hp hm
  have hcond : ((decide ((Piece.mk Kind.pawn col).kind = Kind.pawn)) &&
      (((Piece.mk Kind.pawn col).isW && decide (m.row = 0)) ||
        (!(Piece.mk Kind.pawn col).isW && decide (m.row = 7)))) = true := by
    cases hcol : col <;> rw [hcol] at hfar <;> simp at hfar <;> simp [hcol, hfar]
  have hmain : (movePiece g r c m.row m.col m).board.get? m.row m.col
      = some ⟨Kind.queen, col⟩ := by
    rw [movePiece_board_plain hp hca]
    rw [hcond, if_pos rfl]
    exact Board.get?_set_self _ _ hbnd
  refine ⟨hmain, fun q hq h => ?_⟩
  rw [hmain] at h
  have h2 := Option.some.inj h
  rw [← h2] at hq
  simp at hq

theorem claimC7_witness :
    promoState.board.get? 1 0 = some ⟨Kind.pawn, true⟩ ∧
    mv 0 0 ∈ getValidMoves promoState 1 0 ∧
    (mv 0 0).row = (if true then 0 else 7) ∧
    (movePiece promoState 1 0 (mv 0 0).row (mv 0 0).col (mv 0 0)).board.get? (mv 0 0).row
      (mv 0 0).col = some ⟨Kind.queen, true⟩ :=
  ⟨by decide, by decide, by decide,
    (claimC7 promoState 1 0 true (mv 0 0) (by decide) (by decide) (by decide)).1⟩

/-- C8: for a non-castling committed move onto an occupied destination, the
captured piece is appended to the capture list keyed by the captured piece's
own color, that list grows by exactly one, and the other list is unchanged;
for a non-capturing or castling move both capture lists are unchanged. -/
theorem claimC8 (g : GameState) (fr fc tr tc : Int) (m : Move) (p : Piece)
    (hp : g.board.get? fr fc = some p) :
    (∀ q : Piece, m.isCastling = false → g.board.get? tr tc = some q →
      (q.isW = true →
        (movePiece g fr fc tr tc m).capturedWhite = g.capturedWhite ++ [q] ∧
        (movePiece g fr fc tr tc m).capturedWhite.length = g.capturedWhite.length + 1 ∧
        (movePiece g fr fc tr tc m).capturedBlack = g.capturedBlack) ∧
      (q.isW = false →
        (movePiece g fr fc tr tc m).capturedBlack = g.capturedBlack ++ [q] ∧
        (movePiece g fr fc tr tc m).capturedBlack.length = g.capturedBlack.length + 1 ∧
        (movePiece g fr fc tr tc m).capturedWhite = g.capturedWhite)) ∧
    (m.isCastling = false → g.board.get? tr tc = none →
      (movePiece g fr fc tr tc m).capturedWhite = g.capturedWhite ∧
      (movePiece g fr fc tr tc m).capturedBlack = g.capturedBlack) ∧
    (m.isCastling = true →
      (movePiece g fr fc tr tc m).capturedWhite = g.capturedWhite ∧
      (movePiece g fr fc tr tc m).capturedBlack = g.capturedBlack) := by
  refine ⟨fun q hca hq => ?_, fun hca hnone => movePiece_captured_none hp hca hnone,
    fun hca => movePiece_captured_castling hp hca⟩
  have hw := (movePiece_captured_some hp hca hq).1
  have hb := (movePiece_captured_some hp hca hq).2
  constructor
  · intro hqw
    rw [hqw] at hw hb
    simp only [if_pos rfl] at hw hb
    exact ⟨hw, by rw [hw]; simp, hb⟩
  · intro hqw
    rw [hqw] at hw hb
    simp at hw hb
    exact ⟨hb, by rw [hb]; simp, hw⟩

theorem claimC8_witness :
    captureState.board.get? 4 4 = some ⟨Kind.rook, true⟩ ∧
    (mv 4 7).isCastling = false ∧
    captureState.board.get? 4 7 = some ⟨Kind.knight, false⟩ ∧
    (movePiece captureState 4 4 4 7 (mv 4 7)).capturedBlack
      = captureState.capturedBlack ++ [⟨Kind.knight, false⟩] ∧
    (movePiece captureState 4 4 4 7 (mv 4 7)).capturedWhite = captureState.capturedWhite :=
  ⟨by decide, rfl, by decide,
    (((claimC8 captureState 4 4 4 7 (mv 4 7) ⟨Kind.rook, true⟩ (by decide)).1
      ⟨Kind.knight, false⟩ rfl (by decide)).2 rfl).1,
    (((claimC8 captureState 4 4 4 7 (mv 4 7) ⟨Kind.rook, true⟩ (by decide)).1
      ⟨Kind.knight, false⟩ rfl (by decide)).2 rfl).2.2⟩

/-- C9: every castling candidate generated for color `isWhite` has its rook
column equal to 7 (kingside) or 0 (queenside), and the corresponding corner
square on the castling king's rank holds a rook of the king's own color — so
an opponent's rook on that corner never yields a castling candidate.  (The
source only tests the corner for rook-kind; same-color follows because an
enemy rook there would attack the empty transit squares along the rank.) -/
theorem claimC9 (g : GameState) (row col : Int) (isWhite : Bool) (m : Move)
    (hm : m ∈ getCastlingMoves g row col isWhite) :
    (m.rookCol = 7 ∨ m.rookCol = 0) ∧
    ∃ p : Piece, g.board.get? (if isWhite then 7 else 0) m.rookCol = some p ∧
      p.kind = Kind.rook ∧ p.isW = isWhite := by
  refine ⟨?_, castling_corner_rook hm⟩
  rcases (mem_getCastlingMoves hm).2.2 with ⟨hmeq, -⟩ | ⟨hmeq, -⟩
  · exact Or.inl (by rw [hmeq])
  · exact Or.inr (by rw [hmeq])

theorem claimC9_witness :
    (⟨7, 6, true, 7⟩ : Move) ∈ getCastlingMoves castleReadyState 7 4 true ∧
    (((⟨7, 6, true, 7⟩ : Move).rookCol = 7 ∨ (⟨7, 6, true, 7⟩ : Move).rookCol = 0) ∧
      ∃ p : Piece, castleReadyState.board.get? (if true then 7 else 0)
          (⟨7, 6, true, 7⟩ : Move).rookCol = some p ∧
        p.kind = Kind.rook ∧ p.isW = true) :=
  ⟨by decide, claimC9 castleReadyState 7 4 true ⟨7, 6, true, 7⟩ (by decide)⟩

/-- C10: after a legal castling move commits, only the moving side's king flag
is set (the relocated rook's own flag stays exactly as it was, namely `false`),
and nevertheless no castling candidate of either side is ever generated again
for that color in any later state, because the king flag alone disables
`getCastlingMoves`. -/
theorem claimC10 (g : GameState) (r c : Int) (p : Piece) (m : Move)
    (hp : g.board.get? r c = some p) (hm : m ∈ getValidMoves g r c)
    (hca : m.isCastling = true) :
    (movePiece g r c m.row m.col m).hasMoved =
      (if p.isW then { g.hasMoved with whiteKing := true }
       else { g.hasMoved with blackKing := true }) ∧
    (m.rookCol = 7 →
      (if p.isW then (movePiece g r c m.row m.col m).hasMoved.whiteRookRight
       else (movePiece g r c m.row m.col m).hasMoved.blackRookRight) = false) ∧
    (m.rookCol = 0 →
      (if p.isW then (movePiece g r c m.row m.col m).hasMoved.whiteRookLeft
       else (movePiece g r c m.row m.col m).hasMoved.blackRookLeft) = false) ∧
    (∀ (steps : List (Int × Int × Move)) (row2 col2 : Int),
      getCastlingMoves (applySeq (movePiece g r c m.row m.col m) steps) row2 col2 p.isW
        = []) := by
  obtain ⟨pk, pw⟩ := p
  have hck := castling_from_king hp hm hca
  have hflags := mem_getCastlingMoves hck.2
  have hHM := @movePiece_hasMoved_castling g r c m.row m.col m ⟨pk, pw⟩ hp hca hck.1
  refine ⟨hHM, fun h7 => ?_, fun h0 => ?_, ?_⟩
  · rcases hflags.2.2 with ⟨hmeq, hflag, -⟩ | ⟨hmeq, -⟩
    · rw [hHM]
      cases pw <;> simp at hflag ⊢ <;> exact hflag
    · rw [hmeq] at h7
      simp at h7
  · rcases hflags.2.2 with ⟨hmeq, -⟩ | ⟨hmeq, hflag, -⟩
    · rw [hmeq] at h0
      simp at h0
    · rw [hHM]
      cases pw <;> simp at hflag ⊢ <;> exact hflag
  · have hkf : (if (Piece.mk pk pw).isW
        then (movePiece g r c m.row m.col m).hasMoved.whiteKing
        else (movePiece g r c m.row m.col m).hasMoved.blackKing) = true := by
      rw [hHM]
      cases pw <;> simp
    exact castle_dead (Piece.mk pk pw).isW hkf

theorem claimC10_witness :
    castleReadyState.board.get? 7 4 = some ⟨Kind.king, true⟩ ∧
    (⟨7, 6, true, 7⟩ : Move) ∈ getValidMoves castleReadyState 7 4 ∧
    (⟨7, 6, true, 7⟩ : Move).isCastling = true ∧
    (movePiece castleReadyState 7 4 (⟨7, 6, true, 7⟩ : Move).row
        (⟨7, 6, true, 7⟩ : Move).col ⟨7, 6, true, 7⟩).hasMoved =
      (if (Piece.mk Kind.king true).isW
       then { castleReadyState.hasMoved with whiteKing := true }
       else { castleReadyState.hasMoved with blackKing := true }) :=
  ⟨by decide, by decide, rfl,
    (claimC10 castleReadyState 7 4 ⟨Kind.king, true⟩ ⟨7, 6, true, 7⟩ (by decide) (by decide)
      rfl).1⟩

end Chess
